import Mathlib

/-!
Verification of the interpeer multi-agent review router
(`tools/interpeer-mcp/src/index.ts` and
`tools/interpeer-mcp/src/bin/interpeer-agents.ts`).

The TypeScript source is shallowly embedded below.  JavaScript `Map`s are
modelled as association lists in iteration order (a `Map.set` on an existing
key updates the value in place and keeps the key's position; a `set` on a
fresh key appends at the end; `Map.prototype.keys().next().value` is the
first key of the list).  JavaScript numbers that the program uses as
integers are modelled as `Int`.  A value that may be `undefined` is an
`Option`.  Code that can `throw` is embedded in `Except String`.
-/

deriving instance DecidableEq for Except

namespace Interpeer

/-- Usage metadata carried in an `AgentReviewResult` (`index.ts` lines
113-117). -/
structure UsageRec where
  input_tokens : Option Int
  output_tokens : Option Int
  total_tokens : Option Int
deriving DecidableEq, Repr, Inhabited

/-- Model of `AgentReviewResult` (`index.ts` lines 109-119).  The nested `usage`
object is a JavaScript object reference; it is modelled as an address into
a usage heap (`none` = the `usage` field is `undefined`).  All other fields
are primitives, which JavaScript copies by value. -/
structure AgentResultObj where
  agent : String
  model : String
  text : String
  usage : Option Nat
  cacheStatus : Option String
deriving DecidableEq, Repr, Inhabited

/-- Model of `CachedEntry` (`index.ts` lines 257-260), value-level view: the stored
agent result is taken as a record value.  This view is adequate for the
purely functional cache claims (TTL and eviction order). -/
structure CachedEntry where
  timestamp : Int
  agent : AgentResultObj
deriving DecidableEq, Repr, Inhabited

/-- A JavaScript `Map` in iteration order. -/
abbrev MapL (α : Type) := List (String × α)

/-- Model of `Map.prototype.get`. -/
def mapLookup {α : Type} : MapL α → String → Option α
  | [], _ => none
  | (k, v) :: rest, key => if k = key then some v else mapLookup rest key

/-- Model of `Map.prototype.set`: update in place when the key is present (the key
keeps its position in iteration order), otherwise append at the end. -/
def mapSet {α : Type} (m : MapL α) (key : String) (v : α) : MapL α :=
  if m.any (fun p => p.1 = key) then
    m.map (fun p => if p.1 = key then (key, v) else p)
  else
    m ++ [(key, v)]

/-- Model of `Map.prototype.delete`. -/
def mapDelete {α : Type} (m : MapL α) (key : String) : MapL α :=
  m.filter (fun p => p.1 ≠ key)

/-- The eviction loop of `storeCacheEntry` (`index.ts` lines 794-798):
`while (size > maxEntries) { const oldestKey = keys().next().value;
if (!oldestKey) break; delete(oldestKey); }`.  The loop removes at least one
entry per iteration, so fuel equal to the map's size is enough; the
falsiness test `!oldestKey` also breaks on the empty-string key. -/
def evictFuel {α : Type} : Nat → MapL α → Nat → MapL α
  | 0, m, _ => m
  | fuel + 1, m, maxEntries =>
    if maxEntries < m.length then
      match m with
      | [] => m
      | (k, _) :: _ => if k = "" then m else evictFuel fuel (mapDelete m k) maxEntries
    else m

/-- Model of `storeCacheEntry` (`index.ts` lines 790-799): store a shallow copy of
the result with `cacheStatus` cleared, then evict oldest-first while the
size exceeds `maxEntries`.  `Date.now()` is passed in as `now`. -/
def storeCacheEntry (cache : MapL CachedEntry) (key : String)
    (result : AgentResultObj) (now : Int) (maxEntries : Nat) : MapL CachedEntry :=
  let storedAgent : AgentResultObj := { result with cacheStatus := none }
  let c := mapSet cache key { timestamp := now, agent := storedAgent }
  evictFuel c.length c maxEntries

/-- Model of `getCacheEntry` (`index.ts` lines 777-788): `null` for a missing key;
delete and return `null` when `now - entry.timestamp > ttlMs` (strict);
otherwise return a copy `{ timestamp, agent: { ...entry.agent } }` without
touching the map.  Returns the looked-up value together with the map after
the call. -/
def getCacheEntry (cache : MapL CachedEntry) (key : String)
    (ttlMs now : Int) : Option CachedEntry × MapL CachedEntry :=
  match mapLookup cache key with
  | none => (none, cache)
  | some entry =>
    if ttlMs < now - entry.timestamp then
      (none, mapDelete cache key)
    else
      (some { timestamp := entry.timestamp, agent := entry.agent }, cache)

/-- Folding `storeCacheEntry` over a list of key/result pairs. -/
def storeAll (cache : MapL CachedEntry) (items : List (String × AgentResultObj))
    (now : Int) (maxEntries : Nat) : MapL CachedEntry :=
  items.foldl (fun c kv => storeCacheEntry c kv.1 kv.2 now maxEntries) cache

/-- Well-formedness maintained by the real cache: distinct keys (a `Map`
cannot hold a key twice) and non-empty keys (cache keys are
`JSON.stringify` outputs, which always start with `\x7b`). -/
def cacheWF {α : Type} (m : MapL α) : Prop :=
  (m.map Prod.fst).Nodup ∧ ∀ q ∈ m, q.1 ≠ ""

/-! ### Heap-level view of the cache (object identity)

For the frame claim about defensive copies the object identity of the
stored `AgentReviewResult` matters, so here the result objects themselves
live on a heap (`List AgentResultObj`, addresses are indices, allocation
appends).  `{ ...obj }` allocates a fresh object whose fields are copied —
including the `usage` field, which copies the *reference*. -/

/-- Model of `CachedEntry` as stored by the real `Map`: the `agent` field is a
reference to a result object on the heap. -/
structure CachedEntryH where
  timestamp : Int
  agentAddr : Nat
deriving DecidableEq, Repr, Inhabited

/-- Model of `storeCacheEntry` at heap level: `{ ...result, cacheStatus: undefined }`
allocates a fresh object copying the caller's object at `resultAddr`
field-by-field (the `usage` reference included) and the map stores the
fresh address. -/
def storeCacheEntryH (cache : MapL CachedEntryH) (rheap : List AgentResultObj)
    (key : String) (resultAddr : Nat) (now : Int) (maxEntries : Nat) :
    MapL CachedEntryH × List AgentResultObj :=
  let r := (rheap.get? resultAddr).getD default
  let storedAgent : AgentResultObj := { r with cacheStatus := none }
  let rheap' := rheap ++ [storedAgent]
  let c := mapSet cache key { timestamp := now, agentAddr := rheap.length }
  (evictFuel c.length c maxEntries, rheap')

/-- Model of `getCacheEntry` at heap level: on a hit, `{ ...entry.agent }` allocates
a fresh shallow copy of the stored object (same `usage` reference) and the
returned entry points at that copy. -/
def getCacheEntryH (cache : MapL CachedEntryH) (rheap : List AgentResultObj)
    (key : String) (ttlMs now : Int) :
    Option CachedEntryH × MapL CachedEntryH × List AgentResultObj :=
  match mapLookup cache key with
  | none => (none, cache, rheap)
  | some entry =>
    if ttlMs < now - entry.timestamp then
      (none, mapDelete cache key, rheap)
    else
      let r := (rheap.get? entry.agentAddr).getD default
      (some { timestamp := entry.timestamp, agentAddr := rheap.length },
       cache, rheap ++ [r])

/-- Mutation `obj.usage.input_tokens = v` through a usage reference:
updates the usage heap at the given address. -/
def setUsageInput (uheap : List UsageRec) (addr : Nat) (v : Option Int) :
    List UsageRec :=
  match uheap.get? addr with
  | none => uheap
  | some u => uheap.set addr { u with input_tokens := v }

/-- The usage record observed through a result object's `usage` reference. -/
def usageOf (uheap : List UsageRec) (r : AgentResultObj) : Option UsageRec :=
  r.usage.bind (fun a => uheap.get? a)

/-! ### Retry executor -/

/-- Model of `RetrySettings` (`index.ts` lines 205-208). -/
structure RetrySettings where
  maxAttempts : Int
  baseDelayMs : Int
deriving DecidableEq, Repr, Inhabited

/-- The `while (true)` loop of `withRetries` (`index.ts` lines 1013-1034).
The operation is modelled as a map from the 0-based invocation index to an
outcome.  `fuel` is the number of retries still allowed: a failure with no
fuel left rethrows the error (`attempt >= retry.maxAttempts`), a failure
with fuel left sleeps the current `delay` and retries with `delay * 2`.
Returns the final outcome, the total number of invocations, and the list of
slept delays in order. -/
def withRetriesGo {ε α : Type} (ops : Nat → Except ε α) :
    Nat → Nat → Int → Except ε α × Nat × List Int
  | 0, attempt, _ =>
    match ops attempt with
    | .ok v => (.ok v, attempt + 1, [])
    | .error e => (.error e, attempt + 1, [])
  | f + 1, attempt, delay =>
    match ops attempt with
    | .ok v => (.ok v, attempt + 1, [])
    | .error _ =>
      let r := withRetriesGo ops f (attempt + 1) (delay * 2)
      (r.1, r.2.1, delay :: r.2.2)

/-- Model of `withRetries(fn, retry)` (`index.ts` lines 1013-1034).  The first
attempt is unconditional; a failure at attempt number `attempt` (1-based)
rethrows iff `attempt >= retry.maxAttempts`, i.e. the remaining-retry fuel
`(maxAttempts - 1) - (attempt - 1)` is exhausted. -/
def withRetries {ε α : Type} (ops : Nat → Except ε α) (retry : RetrySettings) :
    Except ε α × Nat × List Int :=
  withRetriesGo ops (retry.maxAttempts - 1).toNat 0 retry.baseDelayMs

/-! ### Environment parsing helpers -/

/-- Leading-digit prefix of a character list, as consumed by JavaScript
`Number.parseInt(s, 10)`; `none` when there is no digit (`NaN`). -/
def digitsPrefix (cs : List Char) : Option Nat :=
  let ds := cs.takeWhile Char.isDigit
  if ds.isEmpty then none
  else some (ds.foldl (fun acc c => acc * 10 + (c.toNat - 48)) 0)

/-- JavaScript `Number.parseInt(s, 10)`: skip leading whitespace, read an
optional sign and then a digit prefix; `none` models `NaN`. -/
def parseIntJS (s : String) : Option Int :=
  let cs := s.data.dropWhile Char.isWhitespace
  match cs with
  | '-' :: rest => (digitsPrefix rest).map (fun n => -(n : Int))
  | '+' :: rest => (digitsPrefix rest).map (fun n => (n : Int))
  | _ => (digitsPrefix cs).map (fun n => (n : Int))

/-- Model of `parseIntEnv` (`index.ts` lines 854-858): `if (!value) return fallback`
(`undefined` and the empty string are falsy); then the parsed value is used
only when it is finite and strictly positive. -/
def parseIntEnv (value : Option String) (fallback : Int) : Int :=
  match value with
  | none => fallback
  | some s =>
    if s = "" then fallback
    else
      match parseIntJS s with
      | none => fallback
      | some n => if 0 < n then n else fallback

/-- Model of `String.prototype.trim()`: drop whitespace from both ends.
(Defined on the character list so that it evaluates inside the kernel.) -/
def jsTrim (s : String) : String :=
  ⟨((s.data.dropWhile Char.isWhitespace).reverse.dropWhile Char.isWhitespace).reverse⟩

/-- Lower-case one ASCII character (`String.prototype.toLowerCase()` on the
ASCII range, which is all this program compares against). -/
def jsCharLower (c : Char) : Char :=
  if 'A' ≤ c ∧ c ≤ 'Z' then Char.ofNat (c.toNat + 32) else c

/-- Model of `String.prototype.toLowerCase()`. -/
def jsToLower (s : String) : String :=
  ⟨s.data.map jsCharLower⟩

/-- Split a character list at every separator character (keeping empty
pieces), as `String.prototype.split` does for a single-character pattern
and as `split(/\s+/)` does up to the empty pieces that the callers filter
away. -/
def splitChars (p : Char → Bool) : List Char → List (List Char)
  | [] => [[]]
  | c :: rest =>
    let r := splitChars p rest
    if p c then [] :: r
    else
      match r with
      | [] => [[c]]
      | h :: t => (c :: h) :: t

/-- Model of `String.prototype.split` with a character class. -/
def splitPred (p : Char → Bool) (s : String) : List String :=
  (splitChars p s.data).map (fun cs => ⟨cs⟩)

/-- Model of `parseBool` (`index.ts` lines 860-863). -/
def parseBool (value : Option String) (fallback : Bool) : Bool :=
  match value with
  | none => fallback
  | some s => if s = "" then fallback else jsToLower s = "true"

/-- Model of `env?.trim() || DEFAULT` (used throughout `loadConfig`): a missing or
whitespace-only variable falls back to the default, otherwise the trimmed
value is used. -/
def envOr (value : Option String) (dflt : String) : String :=
  match value with
  | none => dflt
  | some s => if jsTrim s = "" then dflt else jsTrim s

/-- Model of `parseSettingSources` (`index.ts` lines 1040-1049). -/
inductive SettingSource where
  | user
  | project
  | local
deriving DecidableEq, Repr

/-- Decode one trimmed token of `INTERPEER_CLAUDE_SETTING_SOURCES`;
tokens outside the allowed set are dropped by the filter. -/
def settingSourceOf (s : String) : Option SettingSource :=
  if s = "user" then some .user
  else if s = "project" then some .project
  else if s = "local" then some .local
  else none

/-- Model of `parseSettingSources` (`index.ts` lines 1040-1049): split on commas,
trim, keep only allowed sources, and return `undefined` when nothing is
left. -/
def parseSettingSources (raw : Option String) : Option (List SettingSource) :=
  match raw with
  | none => none
  | some s =>
    let sources := ((splitPred (fun c => c = ',') s).map jsTrim).filterMap settingSourceOf
    if sources.isEmpty then none else some sources

/-- Model of `parseExtraArgs` (`index.ts` lines 1051-1057): split on whitespace and
drop empty pieces (`undefined` and the empty string are falsy and yield
`[]`). -/
def parseExtraArgs (raw : Option String) : List String :=
  match raw with
  | none => []
  | some s =>
    if s = "" then []
    else ((splitPred Char.isWhitespace s).map jsTrim).filter (fun v => v ≠ "")

/-! ### Configuration data model (`index.ts` lines 210-255) -/

/-- Model of `ClaudeAgentConfig` (`index.ts` lines 210-216). -/
structure ClaudeAgentConfig where
  model : String
  settingSources : Option (List SettingSource)
  customSystemPrompt : Option String
  command : Option String
  retry : RetrySettings
deriving DecidableEq, Repr

/-- Model of `CodexAgentConfig` (`index.ts` lines 218-224). -/
structure CodexAgentConfig where
  model : String
  command : String
  profile : Option String
  verbose : Bool
  retry : RetrySettings
deriving DecidableEq, Repr

/-- Model of `FactoryAgentConfig` (`index.ts` lines 226-232). -/
structure FactoryAgentConfig where
  command : String
  model : String
  extraArgs : List String
  format : String
  retry : RetrySettings
deriving DecidableEq, Repr

/-- Model of `LoggingConfig` (`index.ts` lines 234-237). -/
structure LoggingConfig where
  enabled : Bool
  redactContent : Bool
deriving DecidableEq, Repr

/-- Cache policy (`index.ts` lines 246-250). -/
structure CacheConfig where
  enabled : Bool
  ttlMs : Int
  maxEntries : Int
deriving DecidableEq, Repr

/-- Model of `defaults` record (`index.ts` lines 251-254). -/
structure DefaultsConfig where
  agent : String
  model : Option String
deriving DecidableEq, Repr

/-- A custom adapter object registered through the JSON file (the dynamic
`config.agents[id] = adapter` assignment, `index.ts` lines 983-993). -/
structure CustomAdapter where
  command : Option String
  model : Option String
  retryMaxAttempts : Option Int
  retryBaseDelayMs : Option Int
deriving DecidableEq, Repr

/-- Model of `InterpeerConfig.agents` (`index.ts` lines 240-244) together with the
dynamically added custom adapters. -/
structure AgentsConfig where
  claude : ClaudeAgentConfig
  codex : CodexAgentConfig
  factory : FactoryAgentConfig
  custom : MapL CustomAdapter
deriving DecidableEq, Repr

/-- Model of `InterpeerConfig` (`index.ts` lines 239-255). -/
structure InterpeerConfig where
  agents : AgentsConfig
  logging : LoggingConfig
  cache : CacheConfig
  defaults : DefaultsConfig
deriving DecidableEq, Repr

/-! ### The JSON config file (`Partial<InterpeerConfig>`)

Each field is an `Option`: `none` means the key is absent from the JSON
object, so a spread of the override leaves the base value in place. -/

/-- Partial retry settings from the file. -/
structure RetryOverride where
  maxAttempts : Option Int
  baseDelayMs : Option Int
deriving DecidableEq, Repr, Inhabited

/-- Partial `claude` agent override from the file. -/
structure ClaudeOverride where
  model : Option String
  settingSources : Option (List SettingSource)
  customSystemPrompt : Option String
  command : Option String
  retry : Option RetryOverride
deriving DecidableEq, Repr, Inhabited

/-- Partial `codex` agent override from the file. -/
structure CodexOverride where
  model : Option String
  command : Option String
  profile : Option String
  verbose : Option Bool
  retry : Option RetryOverride
deriving DecidableEq, Repr, Inhabited

/-- Partial `factory` agent override from the file. -/
structure FactoryOverride where
  command : Option String
  model : Option String
  extraArgs : Option (List String)
  format : Option String
  retry : Option RetryOverride
deriving DecidableEq, Repr, Inhabited

/-- The `agents` object of the file: optional overrides for the three
built-in ids plus entries under any other (non-reserved) key. -/
structure FileAgents where
  claude : Option ClaudeOverride
  codex : Option CodexOverride
  factory : Option FactoryOverride
  custom : MapL CustomAdapter
deriving DecidableEq, Repr, Inhabited

/-- Partial `logging` override from the file. -/
structure LoggingOverride where
  enabled : Option Bool
  redactContent : Option Bool
deriving DecidableEq, Repr, Inhabited

/-- Partial `cache` override from the file. -/
structure CacheOverride where
  enabled : Option Bool
  ttlMs : Option Int
  maxEntries : Option Int
deriving DecidableEq, Repr, Inhabited

/-- Partial `defaults` override from the file.  For `model` the outer
`Option` is key presence (the code tests `'model' in fileOverrides.defaults`)
and the inner `Option` is the value (`none` = JSON `null`). -/
structure DefaultsOverride where
  agent : Option String
  model : Option (Option String)
deriving DecidableEq, Repr, Inhabited

/-- A parsed config file (`Partial<InterpeerConfig>`). -/
structure FileOverrides where
  agents : Option FileAgents
  logging : Option LoggingOverride
  cache : Option CacheOverride
  defaults : Option DefaultsOverride
deriving DecidableEq, Repr, Inhabited

/-! ### Process environment -/

/-- The `INTERPEER_*` environment variables read by `loadConfig`
(`none` = unset). -/
structure Env where
  configPath : Option String
  maxRetries : Option String
  retryDelayMs : Option String
  claudeSettingSources : Option String
  claudeModel : Option String
  claudeCustomSystemPrompt : Option String
  claudeCommand : Option String
  claudeMaxRetries : Option String
  claudeRetryDelayMs : Option String
  codexModel : Option String
  codexCommand : Option String
  codexProfile : Option String
  codexVerbose : Option String
  codexMaxRetries : Option String
  codexRetryDelayMs : Option String
  factoryCommand : Option String
  factoryModel : Option String
  factoryExtraArgs : Option String
  factoryFormat : Option String
  factoryMaxRetries : Option String
  factoryRetryDelayMs : Option String
  loggingEnabled : Option String
  loggingRedactContent : Option String
  cacheEnabled : Option String
  cacheTtlMs : Option String
  cacheMaxEntries : Option String
deriving DecidableEq, Repr, Inhabited

/-- Built-in defaults (`index.ts` lines 28-38). -/
def DEFAULT_TARGET_AGENT : String := "claude_code"

def DEFAULT_CLAUDE_MODEL : String := "sonnet"

def DEFAULT_CODEX_MODEL : String := "gpt-5-codex"

def DEFAULT_FACTORY_COMMAND : String := "factory"

def DEFAULT_FACTORY_MODEL : String := "factory-droid"

def DEFAULT_MAX_RETRIES : Int := 3

def DEFAULT_RETRY_DELAY_MS : Int := 2000

def DEFAULT_CACHE_TTL_MS : Int := 5 * 60 * 1000

def DEFAULT_CACHE_MAX_ENTRIES : Int := 50

/-- Model of `setDefaultModelOverride` (`index.ts` lines 429-431):
`model?.trim() || undefined`. -/
def setModelOverride (model : Option String) : Option String :=
  match model with
  | none => none
  | some s => if jsTrim s = "" then none else some (jsTrim s)

/-- The environment-derived configuration literal built at `index.ts`
lines 880-947, before any file overrides are merged in.  `dta` and `dmo`
are the current `defaultTargetAgent` / `defaultModelOverride` globals. -/
def envConfig (env : Env) (dta : String) (dmo : Option String) : InterpeerConfig :=
  let baseRetry : RetrySettings :=
    { maxAttempts := parseIntEnv env.maxRetries DEFAULT_MAX_RETRIES,
      baseDelayMs := parseIntEnv env.retryDelayMs DEFAULT_RETRY_DELAY_MS }
  { agents :=
      { claude :=
          { model := envOr env.claudeModel DEFAULT_CLAUDE_MODEL,
            settingSources := parseSettingSources env.claudeSettingSources,
            customSystemPrompt := env.claudeCustomSystemPrompt.map jsTrim,
            command := env.claudeCommand.map jsTrim,
            retry :=
              { maxAttempts := parseIntEnv env.claudeMaxRetries baseRetry.maxAttempts,
                baseDelayMs := parseIntEnv env.claudeRetryDelayMs baseRetry.baseDelayMs } },
        codex :=
          { model := envOr env.codexModel DEFAULT_CODEX_MODEL,
            command := envOr env.codexCommand "codex",
            profile := env.codexProfile.map jsTrim,
            verbose := parseBool env.codexVerbose false,
            retry :=
              { maxAttempts := parseIntEnv env.codexMaxRetries baseRetry.maxAttempts,
                baseDelayMs := parseIntEnv env.codexRetryDelayMs baseRetry.baseDelayMs } },
        factory :=
          { command := envOr env.factoryCommand DEFAULT_FACTORY_COMMAND,
            model := envOr env.factoryModel DEFAULT_FACTORY_MODEL,
            extraArgs := parseExtraArgs env.factoryExtraArgs,
            format := envOr env.factoryFormat "markdown",
            retry :=
              { maxAttempts := parseIntEnv env.factoryMaxRetries baseRetry.maxAttempts,
                baseDelayMs := parseIntEnv env.factoryRetryDelayMs baseRetry.baseDelayMs } },
        custom := [] },
    logging :=
      { enabled := parseBool env.loggingEnabled true,
        redactContent := parseBool env.loggingRedactContent true },
    cache :=
      { enabled := parseBool env.cacheEnabled true,
        ttlMs := parseIntEnv env.cacheTtlMs DEFAULT_CACHE_TTL_MS,
        maxEntries := parseIntEnv env.cacheMaxEntries DEFAULT_CACHE_MAX_ENTRIES },
    defaults := { agent := dta, model := dmo } }

/-- Model of `config.agents.claude = { ...config.agents.claude, ...o, retry:
{ ...config.agents.claude.retry, ...o.retry } }` (`index.ts` lines
950-959). -/
def mergeClaude (base : ClaudeAgentConfig) (o : ClaudeOverride) : ClaudeAgentConfig :=
  { model := o.model.getD base.model,
    settingSources := (o.settingSources.map some).getD base.settingSources,
    customSystemPrompt := (o.customSystemPrompt.map some).getD base.customSystemPrompt,
    command := (o.command.map some).getD base.command,
    retry :=
      { maxAttempts := ((o.retry.bind RetryOverride.maxAttempts)).getD base.retry.maxAttempts,
        baseDelayMs := ((o.retry.bind RetryOverride.baseDelayMs)).getD base.retry.baseDelayMs } }

/-- Same spread-merge for the `codex` agent (`index.ts` lines 961-970). -/
def mergeCodex (base : CodexAgentConfig) (o : CodexOverride) : CodexAgentConfig :=
  { model := o.model.getD base.model,
    command := o.command.getD base.command,
    profile := (o.profile.map some).getD base.profile,
    verbose := o.verbose.getD base.verbose,
    retry :=
      { maxAttempts := ((o.retry.bind RetryOverride.maxAttempts)).getD base.retry.maxAttempts,
        baseDelayMs := ((o.retry.bind RetryOverride.baseDelayMs)).getD base.retry.baseDelayMs } }

/-- Same spread-merge for the `factory` agent (`index.ts` lines 972-981). -/
def mergeFactory (base : FactoryAgentConfig) (o : FactoryOverride) : FactoryAgentConfig :=
  { command := o.command.getD base.command,
    model := o.model.getD base.model,
    extraArgs := o.extraArgs.getD base.extraArgs,
    format := o.format.getD base.format,
    retry :=
      { maxAttempts := ((o.retry.bind RetryOverride.maxAttempts)).getD base.retry.maxAttempts,
        baseDelayMs := ((o.retry.bind RetryOverride.baseDelayMs)).getD base.retry.baseDelayMs } }

/-- The `if (fileOverrides) { ... }` merge block of `loadConfig`
(`index.ts` lines 949-1008): file values are spread over the
environment-derived config, custom (non-reserved) agent entries are
assigned into `config.agents`, and `logging` / `cache` are spread
likewise. -/
def applyFileOverrides (config : InterpeerConfig) (fileOverrides : Option FileOverrides) :
    InterpeerConfig :=
  match fileOverrides with
  | none => config
  | some fo =>
    let agents := config.agents
    let agents :=
      match fo.agents.bind FileAgents.claude with
      | some o => { agents with claude := mergeClaude agents.claude o }
      | none => agents
    let agents :=
      match fo.agents.bind FileAgents.codex with
      | some o => { agents with codex := mergeCodex agents.codex o }
      | none => agents
    let agents :=
      match fo.agents.bind FileAgents.factory with
      | some o => { agents with factory := mergeFactory agents.factory o }
      | none => agents
    let agents :=
      match fo.agents with
      | some fa => { agents with custom := fa.custom }
      | none => agents
    let logging :=
      match fo.logging with
      | some o =>
        { enabled := o.enabled.getD config.logging.enabled,
          redactContent := o.redactContent.getD config.logging.redactContent }
      | none => config.logging
    let cache :=
      match fo.cache with
      | some o =>
        { enabled := o.enabled.getD config.cache.enabled,
          ttlMs := o.ttlMs.getD config.cache.ttlMs,
          maxEntries := o.maxEntries.getD config.cache.maxEntries }
      | none => config.cache
    { config with agents := agents, logging := logging, cache := cache }

/-- Result of `loadConfig`: the resolved config, the `console.warn`
messages emitted, and the (possibly updated) `defaultTargetAgent` /
`defaultModelOverride` globals. -/
structure LoadResult where
  config : InterpeerConfig
  warnings : List String
  defaultAgent : String
  defaultModel : Option String
deriving DecidableEq, Repr

/-- Abstraction of Node's `resolve(projectRoot, configPath)`. -/
def resolvePath (root rel : String) : String := root ++ "/" ++ rel

/-- Model of `loadConfig(projectRoot)` (`index.ts` lines 838-1011).  `fileRead` is
the combined outcome of `accessSync` + `readFileSync` + `JSON.parse` on the
config file (`.error msg` covers a missing, unreadable or unparseable
file).  All three failures land in the same `catch`, which never rethrows:
it logs one warning iff the raw `INTERPEER_CONFIG_PATH` value is truthy,
and the loader falls through to the environment-derived defaults.  `dta`
and `dmo` are the current `defaultTargetAgent` / `defaultModelOverride`
globals, which the file's `defaults` section may update (lines 872-878)
before the config literal is built. -/
def loadConfig (projectRoot : String) (env : Env)
    (fileRead : Except String FileOverrides) (dta : String) (dmo : Option String) :
    LoadResult :=
  let configPath := envOr env.configPath ".taskmaster/interpeer.config.json"
  let fullConfigPath := resolvePath projectRoot configPath
  let envPathTruthy := match env.configPath with
    | none => false
    | some s => s ≠ ""
  let (fileOverrides, warnings) :=
    match fileRead with
    | .ok o => (some o, ([] : List String))
    | .error msg =>
      (none,
       if envPathTruthy then
         ["Failed to load interpeer config file at " ++ fullConfigPath ++ ": " ++ msg]
       else [])
  let dta :=
    match fileOverrides.bind FileOverrides.defaults with
    | some d =>
      match d.agent with
      | some a => if a = "" then dta else a
      | none => dta
    | none => dta
  let dmo :=
    match fileOverrides.bind FileOverrides.defaults with
    | some d =>
      match d.model with
      | some m => setModelOverride m
      | none => dmo
    | none => dmo
  let config := envConfig env dta dmo
  let config := applyFileOverrides config fileOverrides
  { config := config, warnings := warnings, defaultAgent := dta, defaultModel := dmo }

/-! ### Review input preparation (`index.ts` lines 62-107, 738-763) -/

/-- The validated `interpeer_review` input (`reviewInputSchema`,
`index.ts` lines 62-105).  Optional fields are `Option`s; enums are kept
as strings. -/
structure ReviewInput where
  content : String
  focus : Option (List String)
  style : Option String
  time_budget_seconds : Option Int
  review_type : Option String
  target_agent : Option String
  target_model : Option String
  resource_paths : Option (List String)
deriving DecidableEq, Repr, Inhabited

/-- Model of `['# File: p', '\x60\x60\x60', data, '\x60\x60\x60'].join('\n')`
(`index.ts` lines 748-750). -/
def resourceSection (relativePath data : String) : String :=
  "# File: " ++ relativePath ++ "\n" ++ "```" ++ "\n" ++ data ++ "\n" ++ "```"

/-- Model of `Array.prototype.join(sep)`. -/
def joinSep (sep : String) : List String → String
  | [] => ""
  | [s] => s
  | s :: rest => s ++ sep ++ joinSep sep rest

/-- The `for (const relativePath of input.resource_paths)` loop of
`prepareInput` (`index.ts` lines 744-755): read each file, build its
labelled section, and abort with
`Failed to read resource '<path>': <message>` on the first read failure.
`fs` models `readFile` resolved against the project root. -/
def readSections (fs : String → Except String String) :
    List String → Except String (List String)
  | [] => .ok []
  | p :: ps =>
    match fs p with
    | .ok data =>
      match readSections fs ps with
      | .ok rest => .ok (resourceSection p data :: rest)
      | .error e => .error e
    | .error msg =>
      .error ("Failed to read resource '" ++ p ++ "': " ++ msg)

/-- Model of `prepareInput` (`index.ts` lines 738-763): inputs without resource
paths pass through unchanged; otherwise the content becomes
`[input.content, ...resourceSections].filter(Boolean).join('\n\n')`, and a
failing read aborts the whole call. -/
def prepareInput (fs : String → Except String String) (input : ReviewInput) :
    Except String ReviewInput :=
  match input.resource_paths with
  | none => .ok input
  | some [] => .ok input
  | some paths =>
    match readSections fs paths with
    | .error e => .error e
    | .ok sections =>
      let combinedContent :=
        joinSep "\n\n" ((input.content :: sections).filter (fun s => s ≠ ""))
      .ok { input with content := combinedContent }

/-! ### Model resolution in `routeReview` (`index.ts` lines 433-477) -/

/-- Lines 438-440 of `routeReview`: `explicitModel = prepared.target_model
?.trim(); defaultModelForAgent = !input.target_agent ? defaultModelOverride
: undefined; modelOverride = explicitModel ?? defaultModelForAgent`.
`dmo` is the process-wide `defaultModelOverride`. -/
def resolveModelOverride (input : ReviewInput) (dmo : Option String) : Option String :=
  let explicitModel := input.target_model.map jsTrim
  let defaultModelForAgent := if input.target_agent.isNone then dmo else none
  match explicitModel with
  | some m => some m
  | none => defaultModelForAgent

/-- The model finally used by the per-agent runners:
`modelOverride ?? config.model` (`index.ts` lines 485, 540, 600), where
`configModel` is the selected agent's configured default model. -/
def resolveModelId (input : ReviewInput) (dmo : Option String)
    (configModel : String) : String :=
  (resolveModelOverride input dmo).getD configModel

/-! ### Agents management CLI (`bin/interpeer-agents.ts`) -/

/-- Model of `RESERVED_AGENT_IDS` (`interpeer-agents.ts` line 170). -/
def RESERVED_AGENT_IDS : List String := ["claude", "codex", "factory"]

/-- State of the CLI config file on disk, as seen by `loadConfigFile`
(`interpeer-agents.ts` lines 465-476): absent, parsed to overrides (an
empty/whitespace file parses to `{}`, covered by `.parsed default`), or
unreadable/unparseable. -/
inductive CliFile where
  | missing
  | parsed (overrides : FileOverrides)
  | malformed (msg : String)
deriving DecidableEq, Repr

/-- Model of `loadConfigFile(path)` (`interpeer-agents.ts` lines 465-476): `{}` for
a missing file, the parsed overrides otherwise, and a thrown error when
reading or parsing fails. -/
def loadConfigFile (path : String) : CliFile → Except String FileOverrides
  | .missing => .ok default
  | .parsed o => .ok o
  | .malformed msg =>
    .error ("Failed to read config file at " ++ path ++ ": " ++ msg)

/-- The same file as read by `loadConfig` inside `loadMergedConfig`
(`interpeer-agents.ts` lines 446-463): a missing file surfaces as an
`accessSync` error, which `loadConfig` swallows. -/
def cliFileAsRead : CliFile → Except String FileOverrides
  | .missing => .error "ENOENT: no such file or directory"
  | .parsed o => .ok o
  | .malformed msg => .error msg

/-- Key-presence test `id in overrides.agents` / truthiness of
`overrides.agents[id]` on the raw file object. -/
def fileAgentsHas (fa : FileAgents) (id : String) : Bool :=
  if id = "claude" then fa.claude.isSome
  else if id = "codex" then fa.codex.isSome
  else if id = "factory" then fa.factory.isSome
  else fa.custom.any (fun p => p.1 = id)

/-- Model of `delete overrides.agents[id]` on the raw file object. -/
def fileAgentsDelete (fa : FileAgents) (id : String) : FileAgents :=
  if id = "claude" then { fa with claude := none }
  else if id = "codex" then { fa with codex := none }
  else if id = "factory" then { fa with factory := none }
  else { fa with custom := mapDelete fa.custom id }

/-- Model of `Object.keys(config.agents)` of the merged config: the three built-in
ids plus the custom adapters added from the file. -/
def mergedAgentIds (config : InterpeerConfig) : List String :=
  RESERVED_AGENT_IDS ++ config.agents.custom.map Prod.fst

/-- The `add-agent` command after argument validation
(`interpeer-agents.ts` lines 366-392). -/
structure AddAgentCmd where
  agentId : String
  command : String
  model : String
  retry : Option RetryOverride
deriving DecidableEq, Repr

/-- Model of `addAgentAction` (`interpeer-agents.ts` lines 604-641).  `env` is the
process environment during the nested `loadMergedConfig` call (which pins
`INTERPEER_CONFIG_PATH` to the CLI's config path); `file` is the on-disk
config file.  `saveConfigFile` runs only on the success path, so an
`.error` result leaves the file on disk untouched. -/
def addAgentAction (projectRoot configPath : String) (env : Env)
    (file : CliFile) (cmd : AddAgentCmd) : Except String FileOverrides :=
  match loadConfigFile configPath file with
  | .error e => .error e
  | .ok overrides =>
    let oAgents := overrides.agents.getD default
    let overrides := { overrides with agents := some oAgents }
    if cmd.agentId ∈ RESERVED_AGENT_IDS then
      .error ("Agent id '" ++ cmd.agentId ++
        "' is reserved. Use set-agent to customize built-in adapters.")
    else
      let env' := { env with configPath := some configPath }
      let merged := (loadConfig projectRoot env' (cliFileAsRead file)
        DEFAULT_TARGET_AGENT none).config
      if cmd.agentId ∈ mergedAgentIds merged ∨ fileAgentsHas oAgents cmd.agentId then
        .error ("Agent '" ++ cmd.agentId ++
          "' already exists. Use set-agent to update it or remove-agent to delete the override.")
      else
        let retrySettings :=
          match cmd.retry with
          | some r => if r.maxAttempts.isSome ∨ r.baseDelayMs.isSome then some r else none
          | none => none
        let adapter : CustomAdapter :=
          { command := some cmd.command,
            model := some cmd.model,
            retryMaxAttempts := retrySettings.bind RetryOverride.maxAttempts,
            retryBaseDelayMs := retrySettings.bind RetryOverride.baseDelayMs }
        .ok { overrides with
          agents := some { oAgents with custom := mapSet oAgents.custom cmd.agentId adapter } }

/-- Model of `removeAgentAction` (`interpeer-agents.ts` lines 643-652): throws
`not found` when the override file has no entry for the id; only the
success path writes the file back. -/
def removeAgentAction (configPath : String) (file : CliFile) (agentId : String) :
    Except String FileOverrides :=
  match loadConfigFile configPath file with
  | .error e => .error e
  | .ok overrides =>
    match overrides.agents with
    | none => .error ("Agent '" ++ agentId ++ "' not found in config")
    | some fa =>
      if fileAgentsHas fa agentId then
        .ok { overrides with agents := some (fileAgentsDelete fa agentId) }
      else
        .error ("Agent '" ++ agentId ++ "' not found in config")

/-! ### Concrete inputs used by closed theorems and witnesses -/

/-- A sample agent review result. -/
def demoResult : AgentResultObj :=
  { agent := "claude_code", model := "sonnet", text := "review text",
    usage := none, cacheStatus := none }

/-- Environment with `INTERPEER_CLAUDE_MODEL=haiku` and everything else
unset. -/
def c1Env : Env := { (default : Env) with claudeModel := some "haiku" }

/-- A config file setting `agents.claude.model = "opus"`. -/
def c1File : FileOverrides :=
  { (default : FileOverrides) with
    agents := some { (default : FileAgents) with
      claude := some { (default : ClaudeOverride) with model := some "opus" } } }

/-- Environment with `INTERPEER_CONFIG_PATH=.custom/interpeer.json` and
everything else unset. -/
def c5Env : Env := { (default : Env) with configPath := some ".custom/interpeer.json" }

/-- The caller's result object for the defensive-copy scenario; its
`usage` field references address 0 of the usage heap. -/
def c7Caller : AgentResultObj :=
  { agent := "claude_code", model := "sonnet", text := "t",
    usage := some 0, cacheStatus := some "miss" }

/-- Usage heap holding the single shared usage record. -/
def c7Uheap : List UsageRec :=
  [{ input_tokens := some 1, output_tokens := some 2, total_tokens := some 3 }]

/-- Storing the caller's object (heap address 0) in an empty cache. -/
def c7Store : MapL CachedEntryH × List AgentResultObj :=
  storeCacheEntryH [] [c7Caller] "k" 0 100 50

/-- Retrieving the freshly stored entry (not expired). -/
def c7Get : Option CachedEntryH × MapL CachedEntryH × List AgentResultObj :=
  getCacheEntryH c7Store.1 c7Store.2 "k" 9999 100

/-- The object stored in the cache (heap address 1). -/
def c7Stored : AgentResultObj := (c7Get.2.2.get? 1).getD default

/-- The defensive copy returned to the caller (heap address 2). -/
def c7Copy : AgentResultObj := (c7Get.2.2.get? 2).getD default

/-- The usage heap after the downstream mutation
`copy.usage.input_tokens = 42` performed through the retrieved copy's
(shared) usage reference. -/
def c7UheapMutated : List UsageRec := setUsageInput c7Uheap 0 (some 42)

/-- A file system with a single readable file `notes.txt`. -/
def c6Fs : String → Except String String := fun p =>
  if p = "notes.txt" then .ok "sample content"
  else .error "ENOENT: no such file or directory"

/-- A review request expanding `notes.txt`. -/
def c6Input : ReviewInput :=
  { content := "Base content", focus := none, style := none,
    time_budget_seconds := none, review_type := none, target_agent := none,
    target_model := none, resource_paths := some ["notes.txt"] }

/-- A review request naming a non-existent resource path. -/
def c6BadInput : ReviewInput :=
  { content := "Base content", focus := none, style := none,
    time_budget_seconds := none, review_type := none, target_agent := none,
    target_model := none, resource_paths := some ["missing.txt"] }

/-- A custom adapter entry as stored in the CLI config file. -/
def c8Adapter : CustomAdapter :=
  { command := some "x", model := some "y",
    retryMaxAttempts := none, retryBaseDelayMs := none }

/-- A CLI config file that already registers the custom agent
`openrouter`. -/
def c8File : FileOverrides :=
  { (default : FileOverrides) with
    agents := some { (default : FileAgents) with
      custom := [("openrouter", c8Adapter)] } }

end Interpeer

namespace Interpeer

/-! ## Helper lemmas -/

theorem parseIntEnv_pos (v : Option String) (fb : Int) (h : 0 < fb) :
    0 < parseIntEnv v fb := by
  unfold parseIntEnv
  cases v with
  | none => exact h
  | some s =>
    by_cases hs : s = ""
    · simp [hs, h]
    · simp only [hs, if_false]
      cases hps : parseIntJS s with
      | none => exact h
      | some n =>
        by_cases hn : 0 < n
        · simp [hn]
        · simp only [hn, if_false]
          exact h

/-! ## Claim theorems -/

/-- C4: `getCacheEntry(key, ttlMs)` returns `null` for a missing key, and
for a present entry it evicts and returns `null` exactly when
`now - entry.timestamp > ttlMs` (strict); an entry whose age is `≤ ttlMs`
(the boundary `= ttlMs` included) is returned as a copy and the cache is
left untouched. -/
theorem getCacheEntry_ttl_spec (cache : MapL CachedEntry) (key : String)
    (ttlMs now : Int) :
    (mapLookup cache key = none → getCacheEntry cache key ttlMs now = (none, cache))
    ∧ (∀ e, mapLookup cache key = some e → ttlMs < now - e.timestamp →
        getCacheEntry cache key ttlMs now = (none, mapDelete cache key))
    ∧ (∀ e, mapLookup cache key = some e → now - e.timestamp ≤ ttlMs →
        getCacheEntry cache key ttlMs now =
          (some { timestamp := e.timestamp, agent := e.agent }, cache)) := by
  refine ⟨fun h => ?_, fun e he hlt => ?_, fun e he hle => ?_⟩
  · simp [getCacheEntry, h]
  · simp [getCacheEntry, he, if_pos hlt]
  · simp [getCacheEntry, he, if_neg (not_lt.2 hle)]

/-- Witness for C4: an entry of age exactly `ttlMs = 5` is still returned
and the cache is untouched. -/
theorem getCacheEntry_ttl_spec_witness :
    getCacheEntry [("k", { timestamp := 10, agent := demoResult })] "k" 5 15
      = (some { timestamp := 10, agent := demoResult },
         [("k", { timestamp := 10, agent := demoResult })]) := by
  have h := (getCacheEntry_ttl_spec
    [("k", { timestamp := 10, agent := demoResult })] "k" 5 15).2.2
    { timestamp := 10, agent := demoResult } (by decide) (by decide)
  exact h

/-- C9: the model used for a review is resolved in strict order — an
explicit `target_model` wins (trimmed); otherwise the process-wide default
model override applies only when `target_agent` was not supplied; otherwise
the agent's configured default model is used.  In particular an explicit
`target_agent` with no `target_model` ignores the process-wide override. -/
theorem routeReview_model_precedence (input : ReviewInput) (dmo : Option String)
    (configModel : String) :
    (∀ tm, input.target_model = some tm →
        resolveModelId input dmo configModel = jsTrim tm)
    ∧ (input.target_model = none → input.target_agent = none →
        resolveModelId input dmo configModel = dmo.getD configModel)
    ∧ (∀ a, input.target_model = none → input.target_agent = some a →
        resolveModelId input dmo configModel = configModel) := by
  refine ⟨fun tm htm => ?_, fun h1 h2 => ?_, fun a h1 h2 => ?_⟩
  · simp [resolveModelId, resolveModelOverride, htm]
  · cases dmo <;> simp [resolveModelId, resolveModelOverride, h1, h2]
  · simp [resolveModelId, resolveModelOverride, h1, h2]

/-- Witness for C9 at concrete inputs: explicit `target_model` wins; the
override applies only without an explicit `target_agent`; an explicit
`target_agent` pins the agent's configured model. -/
theorem routeReview_model_precedence_witness :
    resolveModelId
        { content := "c", focus := none, style := none, time_budget_seconds := none,
          review_type := none, target_agent := some "claude_code",
          target_model := some " m1 ", resource_paths := none } (some "ovr") "sonnet" = "m1"
    ∧ resolveModelId
        { content := "c", focus := none, style := none, time_budget_seconds := none,
          review_type := none, target_agent := none,
          target_model := none, resource_paths := none } (some "ovr") "sonnet" = "ovr"
    ∧ resolveModelId
        { content := "c", focus := none, style := none, time_budget_seconds := none,
          review_type := none, target_agent := some "claude_code",
          target_model := none, resource_paths := none } (some "ovr") "sonnet" = "sonnet" := by
  refine ⟨?_, ?_, ?_⟩
  · have h := (routeReview_model_precedence
      { content := "c", focus := none, style := none, time_budget_seconds := none,
        review_type := none, target_agent := some "claude_code",
        target_model := some " m1 ", resource_paths := none } (some "ovr") "sonnet").1
      " m1 " rfl
    exact h.trans (by decide)
  · have h := (routeReview_model_precedence
      { content := "c", focus := none, style := none, time_budget_seconds := none,
        review_type := none, target_agent := none,
        target_model := none, resource_paths := none } (some "ovr") "sonnet").2.1 rfl rfl
    simpa using h
  · have h := (routeReview_model_precedence
      { content := "c", focus := none, style := none, time_budget_seconds := none,
        review_type := none, target_agent := some "claude_code",
        target_model := none, resource_paths := none } (some "ovr") "sonnet").2.2
      "claude_code" rfl rfl
    simpa using h

/-- C10: every numeric setting `loadConfig` derives from the environment is
a strictly positive integer: `parseIntEnv` returns the fallback for a
missing, empty, non-numeric, zero or negative value, and with the built-in
(positive) defaults every environment-derived `cache.ttlMs`,
`cache.maxEntries` and per-agent `retry.maxAttempts` / `retry.baseDelayMs`
is strictly positive — so neither the cache TTL nor the retry base delay
can be set to `0` through environment variables. -/
theorem env_numeric_settings_positive :
    (∀ (v : Option String) (fb : Int), 0 < fb → 0 < parseIntEnv v fb)
    ∧ (∀ fb : Int, parseIntEnv none fb = fb ∧ parseIntEnv (some "") fb = fb)
    ∧ (∀ (s : String) (fb : Int), parseIntJS s = none → parseIntEnv (some s) fb = fb)
    ∧ (∀ (s : String) (n fb : Int), parseIntJS s = some n → n ≤ 0 →
        parseIntEnv (some s) fb = fb)
    ∧ (∀ (env : Env) (dta : String) (dmo : Option String),
        0 < (envConfig env dta dmo).cache.ttlMs
        ∧ 0 < (envConfig env dta dmo).cache.maxEntries
        ∧ 0 < (envConfig env dta dmo).agents.claude.retry.maxAttempts
        ∧ 0 < (envConfig env dta dmo).agents.claude.retry.baseDelayMs
        ∧ 0 < (envConfig env dta dmo).agents.codex.retry.maxAttempts
        ∧ 0 < (envConfig env dta dmo).agents.codex.retry.baseDelayMs
        ∧ 0 < (envConfig env dta dmo).agents.factory.retry.maxAttempts
        ∧ 0 < (envConfig env dta dmo).agents.factory.retry.baseDelayMs) := by
  refine ⟨parseIntEnv_pos, fun fb => ⟨rfl, rfl⟩, fun s fb hps => ?_, fun s n fb hps hn => ?_,
    fun env dta dmo => ?_⟩
  · by_cases hs : s = "" <;> simp [parseIntEnv, hs, hps]
  · by_cases hs : s = ""
    · simp [parseIntEnv, hs]
    · simp [parseIntEnv, hs, hps, not_lt.2 hn]
  · refine ⟨?_, ?_, ?_, ?_, ?_, ?_, ?_, ?_⟩
    · exact parseIntEnv_pos _ _ (by norm_num [DEFAULT_CACHE_TTL_MS])
    · exact parseIntEnv_pos _ _ (by norm_num [DEFAULT_CACHE_MAX_ENTRIES])
    · exact parseIntEnv_pos _ _ (parseIntEnv_pos _ _ (by norm_num [DEFAULT_MAX_RETRIES]))
    · exact parseIntEnv_pos _ _ (parseIntEnv_pos _ _ (by norm_num [DEFAULT_RETRY_DELAY_MS]))
    · exact parseIntEnv_pos _ _ (parseIntEnv_pos _ _ (by norm_num [DEFAULT_MAX_RETRIES]))
    · exact parseIntEnv_pos _ _ (parseIntEnv_pos _ _ (by norm_num [DEFAULT_RETRY_DELAY_MS]))
    · exact parseIntEnv_pos _ _ (parseIntEnv_pos _ _ (by norm_num [DEFAULT_MAX_RETRIES]))
    · exact parseIntEnv_pos _ _ (parseIntEnv_pos _ _ (by norm_num [DEFAULT_RETRY_DELAY_MS]))

/-- Witness for C10: zero, negative, garbage and empty environment values
all fall back to the (positive) defaults, and the resolved env-derived
cache and retry numbers are positive in a concrete environment. -/
theorem env_numeric_settings_positive_witness :
    parseIntEnv (some "0") 7 = 7
    ∧ parseIntEnv (some "-3") 7 = 7
    ∧ parseIntEnv (some "abc") 7 = 7
    ∧ parseIntEnv (some "") 7 = 7
    ∧ 0 < (envConfig { (default : Env) with cacheTtlMs := some "0" }
        DEFAULT_TARGET_AGENT none).cache.ttlMs := by
  refine ⟨?_, ?_, ?_, ?_, ?_⟩
  · have h := (env_numeric_settings_positive).2.2.2.1 "0" 0 7 (by decide) (by decide)
    simpa using h
  · have h := (env_numeric_settings_positive).2.2.2.1 "-3" (-3) 7 (by decide) (by decide)
    simpa using h
  · have h := (env_numeric_settings_positive).2.2.1 "abc" 7 (by decide)
    simpa using h
  · exact ((env_numeric_settings_positive).2.1 7).2
  · exact ((env_numeric_settings_positive).2.2.2.2
      { (default : Env) with cacheTtlMs := some "0" } DEFAULT_TARGET_AGENT none).1

theorem sleepList (d : Int) (f : Nat) :
    (List.range (f + 1)).map (fun i => d * 2 ^ i)
      = d :: (List.range f).map (fun i => d * 2 * 2 ^ i) := by
  rw [List.range_succ_eq_map, List.map_cons, List.map_map]
  simp only [pow_zero, mul_one]
  congr 1
  apply List.map_congr_left
  intro i _
  simp [Function.comp, pow_succ]
  ring

theorem withRetriesGo_all_fail {ε α : Type} (ops : Nat → Except ε α) (e : Nat → ε)
    (h : ∀ j, ops j = .error (e j)) (fuel : Nat) :
    ∀ (attempt : Nat) (delay : Int),
    withRetriesGo ops fuel attempt delay =
      (.error (e (attempt + fuel)), attempt + fuel + 1,
       (List.range fuel).map (fun i => delay * 2 ^ i)) := by
  induction fuel with
  | zero =>
    intro attempt delay
    simp [withRetriesGo, h attempt]
  | succ f ih =>
    intro attempt delay
    simp only [withRetriesGo, h attempt]
    rw [ih (attempt + 1) (delay * 2)]
    refine Prod.ext ?_ (Prod.ext ?_ ?_)
    · show Except.error (e (attempt + 1 + f)) = Except.error (e (attempt + (f + 1)))
      congr 2
      omega
    · show attempt + 1 + f + 1 = attempt + (f + 1) + 1
      omega
    · show delay :: (List.range f).map (fun i => delay * 2 * 2 ^ i)
        = (List.range (f + 1)).map (fun i => delay * 2 ^ i)
      rw [sleepList]

theorem withRetriesGo_first_ok {ε α : Type} (ops : Nat → Except ε α) (v : α) :
    ∀ (k fuel attempt : Nat) (delay : Int), k ≤ fuel →
    ops (attempt + k) = .ok v →
    (∀ j, j < k → ∃ er, ops (attempt + j) = .error er) →
    withRetriesGo ops fuel attempt delay =
      (.ok v, attempt + k + 1, (List.range k).map (fun i => delay * 2 ^ i)) := by
  intro k
  induction k with
  | zero =>
    intro fuel attempt delay _ hok _
    simp only [Nat.add_zero] at hok
    cases fuel <;> simp [withRetriesGo, hok]
  | succ k ih =>
    intro fuel attempt delay hkf hok hj
    obtain ⟨er, her⟩ := hj 0 (Nat.succ_pos k)
    simp only [Nat.add_zero] at her
    cases fuel with
    | zero => omega
    | succ f =>
      simp only [withRetriesGo, her]
      have hok' : ops (attempt + 1 + k) = .ok v := by
        rw [show attempt + 1 + k = attempt + (k + 1) by omega]
        exact hok
      have hj' : ∀ j, j < k → ∃ er, ops (attempt + 1 + j) = .error er := by
        intro j hjk
        have h2 := hj (j + 1) (by omega)
        rw [show attempt + 1 + j = attempt + (j + 1) by omega]
        exact h2
      rw [ih f (attempt + 1) (delay * 2) (by omega) hok' hj']
      refine Prod.ext rfl (Prod.ext ?_ ?_)
      · show attempt + 1 + k + 1 = attempt + (k + 1) + 1
        omega
      · show delay :: (List.range k).map (fun i => delay * 2 * 2 ^ i)
          = (List.range (k + 1)).map (fun i => delay * 2 ^ i)
        rw [sleepList]

theorem withRetriesGo_invocations {ε α : Type} (ops : Nat → Except ε α) (fuel : Nat) :
    ∀ (attempt : Nat) (delay : Int),
    attempt + 1 ≤ (withRetriesGo ops fuel attempt delay).2.1
      ∧ (withRetriesGo ops fuel attempt delay).2.1 ≤ attempt + fuel + 1 := by
  induction fuel with
  | zero =>
    intro attempt delay
    cases h : ops attempt <;> simp [withRetriesGo, h]
  | succ f ih =>
    intro attempt delay
    cases h : ops attempt with
    | ok v => simp [withRetriesGo, h]
    | error e =>
      simp only [withRetriesGo, h]
      have h2 := ih (attempt + 1) (delay * 2)
      constructor
      · omega
      · omega



/-- C3: `withRetries` with `maxAttempts >= 1` always invokes the
operation at least once and at most `maxAttempts` times; if every attempt
fails, the last attempt's error is rethrown verbatim after
`maxAttempts` invocations with sleeps `baseDelayMs * 2^(attempt-1)`; if
attempt `k+1` is the first to succeed (`k < maxAttempts`), the call
returns that attempt's value after exactly `k+1` invocations and `k`
sleeps `baseDelayMs * 2^0 .. baseDelayMs * 2^(k-1)`. -/
theorem withRetries_spec {ε α : Type} (ops : Nat → Except ε α) (retry : RetrySettings)
    (hmax : 1 ≤ retry.maxAttempts) :
    (1 ≤ (withRetries ops retry).2.1
      ∧ (withRetries ops retry).2.1 ≤ retry.maxAttempts.toNat)
    ∧ (∀ e : Nat → ε, (∀ j, ops j = .error (e j)) →
        withRetries ops retry =
          (.error (e (retry.maxAttempts.toNat - 1)), retry.maxAttempts.toNat,
           (List.range (retry.maxAttempts.toNat - 1)).map
             (fun i => retry.baseDelayMs * 2 ^ i)))
    ∧ (∀ (k : Nat) (v : α), k < retry.maxAttempts.toNat → ops k = .ok v →
        (∀ j, j < k → ∃ er, ops j = .error er) →
        withRetries ops retry =
          (.ok v, k + 1, (List.range k).map (fun i => retry.baseDelayMs * 2 ^ i))) := by
  have hfuel : (retry.maxAttempts - 1).toNat = retry.maxAttempts.toNat - 1 := by omega
  have hfuel1 : (retry.maxAttempts - 1).toNat + 1 = retry.maxAttempts.toNat := by omega
  refine ⟨?_, fun e he => ?_, fun k v hk hok hj => ?_⟩
  · have h2 := withRetriesGo_invocations ops (retry.maxAttempts - 1).toNat 0 retry.baseDelayMs
    unfold withRetries
    omega
  · unfold withRetries
    rw [withRetriesGo_all_fail ops e he (retry.maxAttempts - 1).toNat 0 retry.baseDelayMs]
    rw [hfuel]
    simp only [Nat.zero_add]
    have h3 : retry.maxAttempts.toNat - 1 + 1 = retry.maxAttempts.toNat := by omega
    rw [h3]
  · unfold withRetries
    have hok' : ops (0 + k) = .ok v := by simpa using hok
    have hj' : ∀ j, j < k → ∃ er, ops (0 + j) = .error er := by
      intro j hjk
      simpa using hj j hjk
    rw [withRetriesGo_first_ok ops v k (retry.maxAttempts - 1).toNat 0 retry.baseDelayMs
      (by omega) hok' hj']
    simp only [Nat.zero_add]

/-- Witness for C3: an operation failing twice then succeeding with
`maxAttempts = 3` is invoked exactly 3 times and succeeds; with
`maxAttempts = 2` and permanent failure there are exactly 2 invocations
and the second error propagates unchanged. -/
theorem withRetries_spec_witness :
    withRetries (fun k => if k < 2 then Except.error ("fail" ++ toString k) else Except.ok "done")
        { maxAttempts := 3, baseDelayMs := 100 } = (.ok "done", 3, [100, 200])
    ∧ withRetries (fun k => (Except.error ("fail" ++ toString k) : Except String String))
        { maxAttempts := 2, baseDelayMs := 100 } = (.error "fail1", 2, [100]) := by
  constructor
  · have h := (withRetries_spec
      (fun k => if k < 2 then Except.error ("fail" ++ toString k) else Except.ok "done")
      { maxAttempts := 3, baseDelayMs := 100 } (by norm_num)).2.2 2 "done"
      (by decide) (by decide)
      (fun j hj => ⟨"fail" ++ toString j, by
        have : j < 2 := hj
        interval_cases j <;> rfl⟩)
    exact h.trans (by decide)
  · have h := (withRetries_spec
      (fun k => (Except.error ("fail" ++ toString k) : Except String String))
      { maxAttempts := 2, baseDelayMs := 100 } (by norm_num)).2.1
      (fun j => "fail" ++ toString j) (fun j => rfl)
    exact h.trans (by decide)

/-- C8: in the agents management CLI, `add-agent` with a reserved id
(`claude`, `codex`, `factory`) fails with the explicit reserved-id error;
`add-agent` with an id that already exists (in the merged config or in the
override file) fails with the already-exists error; and `remove-agent`
with an id absent from the override file fails with the not-found error.
In all three cases the action returns `.error` before reaching
`saveConfigFile`, so the config file on disk is unmodified. -/
theorem agents_cli_guard_errors :
    (∀ (projectRoot configPath : String) (env : Env) (file : CliFile) (cmd : AddAgentCmd)
        (o : FileOverrides), loadConfigFile configPath file = .ok o →
        cmd.agentId ∈ RESERVED_AGENT_IDS →
        addAgentAction projectRoot configPath env file cmd =
          .error ("Agent id '" ++ cmd.agentId ++
            "' is reserved. Use set-agent to customize built-in adapters."))
    ∧ (∀ (projectRoot configPath : String) (env : Env) (file : CliFile) (cmd : AddAgentCmd)
        (o : FileOverrides), loadConfigFile configPath file = .ok o →
        cmd.agentId ∉ RESERVED_AGENT_IDS →
        (cmd.agentId ∈ mergedAgentIds (loadConfig projectRoot
            { env with configPath := some configPath } (cliFileAsRead file)
            DEFAULT_TARGET_AGENT none).config
          ∨ fileAgentsHas (o.agents.getD default) cmd.agentId) →
        addAgentAction projectRoot configPath env file cmd =
          .error ("Agent '" ++ cmd.agentId ++
            "' already exists. Use set-agent to update it or remove-agent to delete the override."))
    ∧ (∀ (configPath : String) (file : CliFile) (agentId : String) (o : FileOverrides),
        loadConfigFile configPath file = .ok o →
        (∀ fa, o.agents = some fa → fileAgentsHas fa agentId = false) →
        removeAgentAction configPath file agentId =
          .error ("Agent '" ++ agentId ++ "' not found in config")) := by
  refine ⟨fun projectRoot configPath env file cmd o ho hres => ?_,
    fun projectRoot configPath env file cmd o ho hres hdup => ?_,
    fun configPath file agentId o ho hnone => ?_⟩
  · simp [addAgentAction, ho, hres]
  · simp [addAgentAction, ho, hres, hdup]
  · cases hfa : o.agents with
    | none => simp [removeAgentAction, ho, hfa]
    | some fa => simp [removeAgentAction, ho, hfa, hnone fa hfa]

/-- Witness for C8 at concrete inputs: adding `claude` is refused as
reserved, re-adding `openrouter` is refused as already existing, and
removing `ghost` from a missing file is refused as not found. -/
theorem agents_cli_guard_errors_witness :
    addAgentAction "/project" ".cfg" default CliFile.missing
        { agentId := "claude", command := "c", model := "m", retry := none }
      = .error "Agent id 'claude' is reserved. Use set-agent to customize built-in adapters."
    ∧ addAgentAction "/project" ".cfg" default (CliFile.parsed c8File)
        { agentId := "openrouter", command := "or", model := "m", retry := none }
      = .error "Agent 'openrouter' already exists. Use set-agent to update it or remove-agent to delete the override."
    ∧ removeAgentAction ".cfg" CliFile.missing "ghost"
      = .error "Agent 'ghost' not found in config" := by
  refine ⟨?_, ?_, ?_⟩
  · exact (agents_cli_guard_errors).1 "/project" ".cfg" default CliFile.missing
      { agentId := "claude", command := "c", model := "m", retry := none }
      default rfl (by decide)
  · exact (agents_cli_guard_errors).2.1 "/project" ".cfg" default (CliFile.parsed c8File)
      { agentId := "openrouter", command := "or", model := "m", retry := none }
      c8File rfl (by decide) (by decide)
  · exact (agents_cli_guard_errors).2.2 ".cfg" CliFile.missing "ghost" default rfl
      (by intro fa hfa; simp at hfa)

/-- C1 (code bug): with `INTERPEER_CLAUDE_MODEL=haiku` in the environment
and `agents.claude.model = "opus"` in the config file, the
environment-derived config carries `"haiku"`, yet `loadConfig` resolves the
claude model to `"opus"`: the merge spreads the file override over the
environment-derived values and nothing re-applies the environment
afterwards, so the file wins — contrary to the claim (and to the repo's
README, which documents that environment variables take precedence over
the config file). -/
theorem loadConfig_file_model_wins_over_env :
    (envConfig c1Env DEFAULT_TARGET_AGENT none).agents.claude.model = "haiku"
    ∧ (loadConfig "/project" c1Env (.ok c1File)
        DEFAULT_TARGET_AGENT none).config.agents.claude.model = "opus" := by
  exact ⟨by decide, by decide⟩

/-- Counterexample for C5: a malformed config file never makes
`loadConfig` fail.  With `INTERPEER_CONFIG_PATH` set and an unparseable
file, `loadConfig` still returns the fully resolved environment/default
configuration (no `ConfigError` is raised, only a warning is recorded);
and with the default path the failure is not even logged — contradicting
both directions of the claim. -/
theorem loadConfig_malformed_no_error_cex :
    (loadConfig "/project" c5Env (.error "Unexpected token u in JSON")
        DEFAULT_TARGET_AGENT none).config
      = envConfig c5Env DEFAULT_TARGET_AGENT none
    ∧ (loadConfig "/project" c5Env (.error "Unexpected token u in JSON")
        DEFAULT_TARGET_AGENT none).warnings
      = ["Failed to load interpeer config file at /project/.custom/interpeer.json: Unexpected token u in JSON"]
    ∧ (loadConfig "/project" (default : Env) (.error "Unexpected token u in JSON")
        DEFAULT_TARGET_AGENT none).warnings = [] := by
  exact ⟨by decide, by decide, by decide⟩

/-- C5 (amended): when the config file is missing, unreadable or
unparseable, `loadConfig` never raises an error: it always returns the
environment/default configuration unchanged, and it logs one warning
exactly when the raw `INTERPEER_CONFIG_PATH` value is set and non-empty
(with the default path the failure is silently ignored). -/
theorem loadConfig_malformed_falls_back (projectRoot : String) (env : Env)
    (msg dta : String) (dmo : Option String) :
    (loadConfig projectRoot env (.error msg) dta dmo).config = envConfig env dta dmo
    ∧ ((loadConfig projectRoot env (.error msg) dta dmo).warnings ≠ [] ↔
        ∃ s, env.configPath = some s ∧ s ≠ "") := by
  constructor
  · simp [loadConfig, applyFileOverrides]
  · cases hp : env.configPath with
    | none => simp [loadConfig, hp]
    | some s =>
      by_cases hs : s = "" <;> simp [loadConfig, hp, hs]

theorem joinSep_ne_empty (sep : String) :
    ∀ l : List String, l ≠ [] → (∀ s ∈ l, s ≠ "") → joinSep sep l ≠ "" := by
  intro l
  induction l with
  | nil => intro h; exact absurd rfl h
  | cons a t ih =>
    intro _ hall
    cases t with
    | nil =>
      simpa [joinSep] using hall a (by simp)
    | cons b t2 =>
      simp only [joinSep]
      intro hcon
      have ha := hall a (by simp)
      have hdata := congrArg String.data hcon
      rw [String.data_append, String.data_append] at hdata
      simp at hdata
      exact ha (String.ext hdata.1)

theorem mem_joinSep_infix (sep : String) :
    ∀ (l : List String) (s : String), s ∈ l → s.data <:+: (joinSep sep l).data := by
  intro l
  induction l with
  | nil => intro s hs; simp at hs
  | cons a t ih =>
    intro s hs
    cases t with
    | nil =>
      simp at hs
      subst hs
      simp [joinSep]
    | cons b t2 =>
      rcases List.mem_cons.1 hs with h | h
      · subst h
        simp only [joinSep]
        rw [show ((s ++ sep) ++ joinSep sep (b :: t2)).data
          = s.data ++ (sep.data ++ (joinSep sep (b :: t2)).data) from by
            rw [String.data_append, String.data_append, List.append_assoc]]
        exact (List.prefix_append s.data _).isInfix
      · have hrec := ih s h
        simp only [joinSep]
        rw [show ((a ++ sep) ++ joinSep sep (b :: t2)).data
          = (a.data ++ sep.data) ++ (joinSep sep (b :: t2)).data from by
            rw [String.data_append, String.data_append]]
        exact hrec.trans (List.suffix_append _ _).isInfix

theorem resourceSection_data (p d : String) :
    (resourceSection p d).data
      = ("# File: " ++ p).data ++ ("\n" ++ "```").data ++ ("\n" ++ d).data
        ++ ("\n" ++ "```").data := by
  simp only [resourceSection, String.data_append]
  simp [List.append_assoc]

theorem resourceSection_label_front (p d : String) :
    ("# File: " ++ p).data <+: (resourceSection p d).data := by
  rw [resourceSection_data]
  rw [List.append_assoc, List.append_assoc]
  exact List.prefix_append _ _

theorem resourceSection_ne_empty (p d : String) : resourceSection p d ≠ "" := by
  intro h
  have hdata := congrArg String.data h
  rw [resourceSection_data] at hdata
  simp [String.data_append] at hdata

theorem readSections_ok (fs : String → Except String String) (d : String → String) :
    ∀ paths : List String, (∀ p ∈ paths, fs p = .ok (d p)) →
    readSections fs paths = .ok (paths.map (fun p => resourceSection p (d p))) := by
  intro paths
  induction paths with
  | nil => intro _; simp [readSections]
  | cons q rest ih =>
    intro h
    have hq := h q (by simp)
    have hrest := ih (fun p hp => h p (by simp [hp]))
    simp [readSections, hq, hrest]

theorem readSections_err (fs : String → Except String String) :
    ∀ paths : List String, (∃ p ∈ paths, ∃ msg, fs p = .error msg) →
    ∃ p msg, p ∈ paths ∧ fs p = .error msg ∧
      readSections fs paths = .error ("Failed to read resource '" ++ p ++ "': " ++ msg) := by
  intro paths
  induction paths with
  | nil => intro h; simp at h
  | cons q rest ih =>
    intro h
    cases hq : fs q with
    | error msg =>
      exact ⟨q, msg, by simp, hq, by simp [readSections, hq]⟩
    | ok dq =>
      obtain ⟨p, hp, msg, hmsg⟩ := h
      rcases List.mem_cons.1 hp with rfl | hp2
      · rw [hq] at hmsg; cases hmsg
      · obtain ⟨p2, msg2, hp2m, hfs2, hrs⟩ := ih ⟨p, hp2, msg, hmsg⟩
        exact ⟨p2, msg2, by simp [hp2m], hfs2, by simp [readSections, hq, hrs]⟩

theorem resourceSection_contains_data (p d : String) :
    d.data <:+: (resourceSection p d).data := by
  refine ⟨("# File: " ++ p).data ++ ("\n" ++ "```").data ++ ['\n'],
    ("\n" ++ "```").data, ?_⟩
  rw [resourceSection_data]
  simp [String.data_append, List.append_assoc]

/-- C6: `prepareInput` fails closed on resource expansion — when every
`resource_paths` entry reads successfully, the prepared content is exactly
the original content followed by each file's labelled section
`# File: <path>` + fenced file contents, in path order; in particular the
content is non-empty and contains the original content, every label and
every file's contents.  When any entry fails to read, the whole call
errors with a message naming a failing path, never silently dropping the
file or the content. -/
theorem prepareInput_fail_closed (fs : String → Except String String)
    (input : ReviewInput) (paths : List String)
    (hp : input.resource_paths = some paths) (hne : paths ≠ []) :
    (∀ d : String → String, (∀ p ∈ paths, fs p = .ok (d p)) →
      ∃ out, prepareInput fs input = .ok out
        ∧ out.content ≠ ""
        ∧ input.content.data <:+: out.content.data
        ∧ (∀ p ∈ paths, ("# File: " ++ p).data <:+: out.content.data)
        ∧ (∀ p ∈ paths, (resourceSection p (d p)).data <:+: out.content.data)
        ∧ (∀ p ∈ paths, (d p).data <:+: out.content.data)
        ∧ (input.content ≠ "" →
            out.content = input.content ++ "\n\n"
              ++ joinSep "\n\n" (paths.map (fun p => resourceSection p (d p)))))
    ∧ ((∃ p ∈ paths, ∃ msg, fs p = .error msg) →
        ∃ p msg, p ∈ paths ∧ fs p = .error msg ∧
          prepareInput fs input =
            .error ("Failed to read resource '" ++ p ++ "': " ++ msg)) := by
  obtain ⟨q, rest, rfl⟩ := List.exists_cons_of_ne_nil hne
  constructor
  · intro d hok
    have hrs := readSections_ok fs d (q :: rest) hok
    have hpre : prepareInput fs input = .ok { input with content := (joinSep "\n\n"
        ((input.content :: (q :: rest).map (fun p => resourceSection p (d p))).filter
          (fun s => s ≠ ""))) } := by
      simp [prepareInput, hp, hrs]
    have hsecmem : ∀ p ∈ q :: rest, resourceSection p (d p) ∈
        (input.content :: (q :: rest).map (fun p => resourceSection p (d p))).filter
          (fun s => s ≠ "") := by
      intro p hpmem
      rw [List.mem_filter]
      refine ⟨List.mem_cons_of_mem _ (List.mem_map_of_mem _ hpmem),
        by simp [resourceSection_ne_empty]⟩
    have hsecinf : ∀ p ∈ q :: rest, (resourceSection p (d p)).data <:+:
        (joinSep "\n\n"
          ((input.content :: (q :: rest).map (fun p => resourceSection p (d p))).filter
            (fun s => s ≠ ""))).data :=
      fun p hpmem => mem_joinSep_infix "\n\n" _ _ (hsecmem p hpmem)
    refine ⟨_, hpre, ?_, ?_, ?_, ?_, ?_, ?_⟩
    · show joinSep "\n\n"
        ((input.content :: (q :: rest).map (fun p => resourceSection p (d p))).filter
          (fun s => s ≠ "")) ≠ ""
      apply joinSep_ne_empty
      · intro hemp
        have := hsecmem q (by simp)
        rw [hemp] at this
        simp at this
      · intro s hs
        have := List.of_mem_filter hs
        simpa using this
    · show input.content.data <:+: (joinSep "\n\n" _).data
      by_cases hc : input.content = ""
      · rw [hc]
        exact List.nil_infix
      · apply mem_joinSep_infix
        rw [List.mem_filter]
        exact ⟨by simp, by simp [hc]⟩
    · intro p hpmem
      exact ((resourceSection_label_front p (d p)).isInfix).trans (hsecinf p hpmem)
    · exact hsecinf
    · intro p hpmem
      exact (resourceSection_contains_data p (d p)).trans (hsecinf p hpmem)
    · intro hc
      show joinSep "\n\n"
          ((input.content :: (q :: rest).map (fun p => resourceSection p (d p))).filter
            (fun s => s ≠ ""))
        = input.content ++ "\n\n"
          ++ joinSep "\n\n" ((q :: rest).map (fun p => resourceSection p (d p)))
      have hsecfil : ((q :: rest).map (fun p => resourceSection p (d p))).filter
          (fun s => s ≠ "") = (q :: rest).map (fun p => resourceSection p (d p)) := by
        apply List.filter_eq_self.mpr
        intro x hx
        obtain ⟨b, _, rfl⟩ := List.mem_map.mp hx
        simp [resourceSection_ne_empty]
      rw [List.filter_cons, if_pos (by simpa using hc), hsecfil]
      rw [List.map_cons]
      simp [joinSep]
  · intro hfail
    obtain ⟨p, msg, hpm, hfs, hrs⟩ := readSections_err fs (q :: rest) hfail
    exact ⟨p, msg, hpm, hfs, by simp [prepareInput, hp, hrs]⟩

/-- Witness for C6: expanding `notes.txt` yields exactly the base content
followed by the labelled section holding `sample content`, and a request
naming `missing.txt` fails the entire call with an error naming that
path. -/
theorem prepareInput_fail_closed_witness :
    (∃ out, prepareInput c6Fs c6Input = .ok out
      ∧ out.content ≠ ""
      ∧ c6Input.content.data <:+: out.content.data
      ∧ (∀ p ∈ ["notes.txt"], ("# File: " ++ p).data <:+: out.content.data)
      ∧ ("sample content").data <:+: out.content.data
      ∧ out.content = "Base content\n\n# File: notes.txt\n```\nsample content\n```")
    ∧ (∃ p msg, p ∈ ["missing.txt"] ∧ c6Fs p = .error msg ∧
        prepareInput c6Fs c6BadInput =
          .error ("Failed to read resource '" ++ p ++ "': " ++ msg)) := by
  constructor
  · obtain ⟨out, h1, h2, h3, h4, h5, h6, h7⟩ :=
      (prepareInput_fail_closed c6Fs c6Input ["notes.txt"] rfl (by decide)).1
        (fun _ => "sample content") (by decide)
    exact ⟨out, h1, h2, h3, h4, h6 "notes.txt" (by decide),
      (h7 (by decide)).trans (by decide)⟩
  · exact (prepareInput_fail_closed c6Fs c6BadInput ["missing.txt"] rfl (by decide)).2
      ⟨"missing.txt", by decide, "ENOENT: no such file or directory", by decide⟩

theorem mapLookup_append_fresh {α : Type} (v : α) :
    ∀ (s : MapL α) (key : String), (∀ q ∈ s, q.1 ≠ key) →
    mapLookup (s ++ [(key, v)]) key = some v := by
  intro s
  induction s with
  | nil => intro key _; simp [mapLookup]
  | cons q t ih =>
    intro key h
    have hq : q.1 ≠ key := h q (by simp)
    simp only [List.cons_append, mapLookup, if_neg hq]
    exact ih key (fun p hp => h p (by simp [hp]))

theorem mapLookup_mapSet {α : Type} (v : α) :
    ∀ (m : MapL α) (key : String), mapLookup (mapSet m key v) key = some v := by
  intro m
  induction m with
  | nil => intro key; simp [mapSet, mapLookup]
  | cons q t ih =>
    intro key
    by_cases hq : q.1 = key
    · have hany : (q :: t).any (fun p => p.1 = key) = true := by
        simp [List.any_cons, hq]
      simp only [mapSet, hany, if_true, List.map_cons, if_pos hq, mapLookup, if_pos rfl]
    · cases hany : t.any (fun p => p.1 = key) with
      | true =>
        have hanyc : (q :: t).any (fun p => p.1 = key) = true := by
          simp [List.any_cons, hany]
        have ihset := ih key
        simp only [mapSet, hany, if_true] at ihset
        simp only [mapSet, hanyc, if_true, List.map_cons, if_neg hq, mapLookup, if_neg hq]
        exact ihset
      | false =>
        have hanyc : (q :: t).any (fun p => p.1 = key) = false := by
          simp [List.any_cons, hany, hq]
        have ihset := ih key
        simp only [mapSet, hany, Bool.false_eq_true, if_false] at ihset
        simp only [mapSet, hanyc, Bool.false_eq_true, if_false, List.cons_append,
          mapLookup, if_neg hq]
        exact ihset

theorem mapSet_fresh {α : Type} (m : MapL α) (key : String) (v : α)
    (h : ∀ q ∈ m, q.1 ≠ key) : mapSet m key v = m ++ [(key, v)] := by
  have hany : m.any (fun p => p.1 = key) = false := by
    simp only [List.any_eq_false, decide_eq_true_eq]
    intro q hq
    exact h q hq
  simp [mapSet, hany]

theorem mapSet_present_map_fst {α : Type} (m : MapL α) (key : String) (v : α)
    (h : m.any (fun p => p.1 = key) = true) :
    (mapSet m key v).map Prod.fst = m.map Prod.fst := by
  simp only [mapSet, h, if_true, List.map_map]
  apply List.map_congr_left
  intro p _
  by_cases hp : p.1 = key
  · simp [Function.comp, hp]
  · simp [Function.comp, hp]

theorem mapSet_present_length {α : Type} (m : MapL α) (key : String) (v : α)
    (h : m.any (fun p => p.1 = key) = true) :
    (mapSet m key v).length = m.length := by
  simp [mapSet, h]

theorem evictFuel_of_le {α : Type} (fuel : Nat) (m : MapL α) (n : Nat)
    (h : m.length ≤ n) : evictFuel fuel m n = m := by
  cases fuel with
  | zero => rfl
  | succ f => simp [evictFuel, Nat.not_lt.2 h]

theorem mapDelete_of_fresh {α : Type} (m : MapL α) (k : String)
    (h : ∀ q ∈ m, q.1 ≠ k) : mapDelete m k = m := by
  apply List.filter_eq_self.2
  intro q hq
  simpa using h q hq



theorem evictFuel_lookup_last {α : Type} (v : α) :
    ∀ (fuel : Nat) (s : MapL α) (key : String) (n : Nat), 1 ≤ n →
    (∀ q ∈ s, q.1 ≠ key) →
    mapLookup (evictFuel fuel (s ++ [(key, v)]) n) key = some v := by
  intro fuel
  induction fuel with
  | zero =>
    intro s key n _ h
    exact mapLookup_append_fresh v s key h
  | succ f ih =>
    intro s key n hn h
    by_cases hlen : (s ++ [(key, v)]).length ≤ n
    · rw [evictFuel_of_le (f + 1) _ n hlen]
      exact mapLookup_append_fresh v s key h
    · have hlt : n < (s ++ [(key, v)]).length := Nat.lt_of_not_le hlen
      cases s with
      | nil =>
        simp at hlt
        omega
      | cons q s2 =>
        obtain ⟨k0, e0⟩ := q
        have hq : k0 ≠ key := h (k0, e0) (by simp)
        rw [List.cons_append] at hlt ⊢
        rw [show evictFuel (f + 1) ((k0, e0) :: (s2 ++ [(key, v)])) n
            = if k0 = "" then (k0, e0) :: (s2 ++ [(key, v)])
              else evictFuel f (mapDelete ((k0, e0) :: (s2 ++ [(key, v)])) k0) n from by
          simp only [evictFuel, if_pos hlt]]
        by_cases hk0 : k0 = ""
        · rw [if_pos hk0, ← List.cons_append]
          exact mapLookup_append_fresh v ((k0, e0) :: s2) key h
        · rw [if_neg hk0]
          have hkey : key ≠ k0 := Ne.symm hq
          have hdel : mapDelete ((k0, e0) :: (s2 ++ [(key, v)])) k0
              = s2.filter (fun p => p.1 ≠ k0) ++ [(key, v)] := by
            simp [mapDelete, List.filter_append, hkey]
          rw [hdel]
          apply ih _ key n hn
          intro p hp
          have hmem := List.mem_of_mem_filter hp
          exact h p (by simp [hmem])

theorem evictFuel_length_le {α : Type} :
    ∀ (fuel : Nat) (m : MapL α) (n : Nat),
    (∀ q ∈ m, q.1 ≠ "") → (m.map Prod.fst).Nodup → m.length ≤ fuel + n →
    (evictFuel fuel m n).length ≤ n := by
  intro fuel
  induction fuel with
  | zero =>
    intro m n _ _ hlen
    simpa [evictFuel] using hlen
  | succ f ih =>
    intro m n hne hnd hlen
    by_cases hle : m.length ≤ n
    · rw [evictFuel_of_le (f + 1) m n hle]
      exact hle
    · have hlt : n < m.length := Nat.lt_of_not_le hle
      cases m with
      | nil => simp at hlt
      | cons q rest =>
        obtain ⟨k0, e0⟩ := q
        have hk0 : k0 ≠ "" := hne (k0, e0) (by simp)
        rw [show evictFuel (f + 1) ((k0, e0) :: rest) n
            = evictFuel f (mapDelete ((k0, e0) :: rest) k0) n from by
          simp only [evictFuel, if_pos hlt, if_neg hk0]]
        rw [List.map_cons] at hnd
        have hnd2 := List.nodup_cons.mp hnd
        have hfresh : ∀ q ∈ rest, q.1 ≠ k0 := by
          intro p hp hpk
          have hmem : p.1 ∈ rest.map Prod.fst := List.mem_map_of_mem Prod.fst hp
          rw [hpk] at hmem
          exact hnd2.1 hmem
        have hdel : mapDelete ((k0, e0) :: rest) k0 = rest := by
          have h1 := mapDelete_of_fresh rest k0 hfresh
          simp only [mapDelete] at h1 ⊢
          rw [List.filter_cons]
          simp only [show (decide ((k0, e0).1 ≠ k0)) = false from by simp,
            Bool.false_eq_true, if_false]
          exact h1
        rw [hdel]
        apply ih rest n (fun q hq => hne q (by simp [hq])) hnd2.2
        have := List.length_cons (k0, e0) rest
        omega



theorem storeCacheEntry_fresh_append (cache : MapL CachedEntry) (key : String)
    (r : AgentResultObj) (now : Int) (maxE : Nat)
    (hf : ∀ q ∈ cache, q.1 ≠ key) (hlen : cache.length + 1 ≤ maxE) :
    storeCacheEntry cache key r now maxE
      = cache ++ [(key, { timestamp := now, agent := { r with cacheStatus := none } })] := by
  show evictFuel (mapSet cache key _).length (mapSet cache key _) maxE = _
  rw [mapSet_fresh _ _ _ hf]
  exact evictFuel_of_le _ _ _ (by simpa using hlen)

theorem mapSet_wf {α : Type} (m : MapL α) (key : String) (v : α)
    (hwf : cacheWF m) (hk : key ≠ "") : cacheWF (mapSet m key v) := by
  cases hany : m.any (fun p => p.1 = key) with
  | true =>
    constructor
    · rw [mapSet_present_map_fst _ _ _ hany]
      exact hwf.1
    · intro q hq
      simp only [mapSet, hany, if_true, List.mem_map] at hq
      obtain ⟨p, hp, rfl⟩ := hq
      by_cases hpk : p.1 = key
      · simp [hpk, hk]
      · simp only [if_neg hpk]
        exact hwf.2 p hp
  | false =>
    have hfr : ∀ q ∈ m, q.1 ≠ key := by
      intro q hq
      have := List.any_eq_false.mp hany q hq
      simpa using this
    rw [mapSet_fresh _ _ _ hfr]
    constructor
    · rw [List.map_append]
      rw [List.nodup_append]
      refine ⟨hwf.1, by simp, ?_⟩
      intro a ha hb
      simp only [List.map_cons, List.map_nil, List.mem_singleton] at hb
      obtain ⟨b, hbm, hba⟩ := List.mem_map.mp ha
      exact hfr b hbm (by rw [hba, hb])
    · intro q hq
      rcases List.mem_append.mp hq with h1 | h1
      · exact hwf.2 q h1
      · rw [List.mem_singleton] at h1
        subst h1
        exact hk

theorem storeCacheEntry_length_le (cache : MapL CachedEntry) (key : String)
    (r : AgentResultObj) (now : Int) (maxE : Nat)
    (hwf : cacheWF cache) (hk : key ≠ "") :
    (storeCacheEntry cache key r now maxE).length ≤ maxE := by
  show (evictFuel (mapSet cache key _).length (mapSet cache key _) maxE).length ≤ maxE
  have hwf2 := mapSet_wf cache key
    { timestamp := now, agent := { r with cacheStatus := none } } hwf hk
  exact evictFuel_length_le _ _ _ hwf2.2 hwf2.1 (by omega)



theorem storeCacheEntry_fresh_full (cache : MapL CachedEntry) (key : String)
    (r : AgentResultObj) (now : Int) (maxE : Nat)
    (hf : ∀ q ∈ cache, q.1 ≠ key) (hwf : cacheWF cache)
    (hlen : cache.length = maxE) (hmax : 1 ≤ maxE) :
    storeCacheEntry cache key r now maxE
      = cache.tail ++ [(key, { timestamp := now, agent := { r with cacheStatus := none } })] := by
  cases cache with
  | nil => simp at hlen; omega
  | cons q rest =>
    obtain ⟨k0, e0⟩ := q
    have hk0 : k0 ≠ "" := hwf.2 (k0, e0) (by simp)
    show evictFuel (mapSet ((k0, e0) :: rest) key _).length
      (mapSet ((k0, e0) :: rest) key _) maxE = _
    rw [mapSet_fresh _ _ _ hf]
    have hclen : (((k0, e0) :: rest) ++
        [(key, ({ timestamp := now, agent := { r with cacheStatus := none } } : CachedEntry))]).length
        = maxE + 1 := by
      simp at hlen ⊢
      omega
    rw [hclen]
    rw [List.cons_append]
    rw [show evictFuel (maxE + 1)
        ((k0, e0) :: (rest ++
          [(key, ({ timestamp := now, agent := { r with cacheStatus := none } } : CachedEntry))])) maxE
        = evictFuel maxE (mapDelete ((k0, e0) :: (rest ++
          [(key, ({ timestamp := now, agent := { r with cacheStatus := none } } : CachedEntry))])) k0) maxE from by
      have hlt : maxE < ((k0, e0) :: (rest ++
          [(key, ({ timestamp := now, agent := { r with cacheStatus := none } } : CachedEntry))])).length := by
        rw [← List.cons_append, hclen]
        omega
      simp only [evictFuel, if_pos hlt, if_neg hk0]]
    have hnd := hwf.1
    rw [List.map_cons] at hnd
    have hnd2 := List.nodup_cons.mp hnd
    have hfreshk0 : ∀ p ∈ rest ++
        [(key, ({ timestamp := now, agent := { r with cacheStatus := none } } : CachedEntry))], p.1 ≠ k0 := by
      intro p hp
      rcases List.mem_append.mp hp with h1 | h1
      · intro hpk
        have hmem : p.1 ∈ rest.map Prod.fst := List.mem_map_of_mem Prod.fst h1
        rw [hpk] at hmem
        exact hnd2.1 hmem
      · rw [List.mem_singleton] at h1
        subst h1
        exact Ne.symm (hf (k0, e0) (by simp))
    have hdel : mapDelete ((k0, e0) :: (rest ++
        [(key, ({ timestamp := now, agent := { r with cacheStatus := none } } : CachedEntry))])) k0
        = rest ++ [(key, ({ timestamp := now, agent := { r with cacheStatus := none } } : CachedEntry))] := by
      have h1 := mapDelete_of_fresh _ k0 hfreshk0
      simp only [mapDelete] at h1 ⊢
      rw [List.filter_cons]
      simp only [show (decide ((k0, e0).1 ≠ k0)) = false from by simp,
        Bool.false_eq_true, if_false]
      exact h1
    rw [hdel]
    rw [evictFuel_of_le]
    · simp
    · simp at hlen ⊢
      omega

theorem storeAll_fresh_under :
    ∀ (ks : List String) (cache : MapL CachedEntry) (r : AgentResultObj)
      (now : Int) (maxE : Nat),
    (∀ k ∈ ks, ∀ q ∈ cache, q.1 ≠ k) → ks.Nodup →
    cache.length + ks.length ≤ maxE →
    storeAll cache (ks.map (fun k => (k, r))) now maxE
      = cache ++ ks.map
          (fun k => (k, { timestamp := now, agent := { r with cacheStatus := none } })) := by
  intro ks
  induction ks with
  | nil => intro cache r now maxE _ _ _; simp [storeAll]
  | cons k t ih =>
    intro cache r now maxE hfr hnd hlen
    have hstep : storeCacheEntry cache k r now maxE
        = cache ++ [(k, { timestamp := now, agent := { r with cacheStatus := none } })] := by
      apply storeCacheEntry_fresh_append cache k r now maxE (hfr k (by simp))
      simp at hlen
      omega
    have hnd2 := List.nodup_cons.mp hnd
    show storeAll cache (((k, r) :: t.map (fun k => (k, r)))) now maxE = _
    rw [show storeAll cache (((k, r) :: t.map (fun k => (k, r)))) now maxE
        = storeAll (storeCacheEntry cache k r now maxE) (t.map (fun k => (k, r))) now maxE
        from rfl]
    rw [hstep]
    rw [ih _ r now maxE ?hfr hnd2.2 ?hlen]
    · simp
    case hfr =>
      intro k2 hk2 q hq
      rcases List.mem_append.mp hq with h1 | h1
      · exact hfr k2 (by simp [hk2]) q h1
      · rw [List.mem_singleton] at h1
        subst h1
        intro hc
        simp only at hc
        exact hnd2.1 (hc ▸ hk2)
    case hlen =>
      simp at hlen ⊢
      omega



/-- C2 (amended): `storeCacheEntry` always inserts or overwrites the
entry for the key (clearing `cacheStatus`) and then evicts
oldest-first-by-insertion while the size exceeds `maxEntries`, so with a
well-formed cache the capacity bound always holds and inserting
`maxEntries + 1` distinct keys into an empty cache leaves exactly
`maxEntries` entries with the oldest evicted.  However — correcting the
claim — a re-inserted existing key keeps its ORIGINAL position in the
iteration order (JavaScript `Map.set` updates in place): the key order
after an overwrite is unchanged, so the re-inserted key does not re-enter
at the freshest point. -/
theorem storeCacheEntry_insertion_order_eviction :
    (∀ (cache : MapL CachedEntry) (key : String) (r : AgentResultObj)
        (now : Int) (maxE : Nat), 1 ≤ maxE → cache.length ≤ maxE →
      mapLookup (storeCacheEntry cache key r now maxE) key
        = some { timestamp := now, agent := { r with cacheStatus := none } })
    ∧ (∀ (cache : MapL CachedEntry) (key : String) (r : AgentResultObj)
        (now : Int) (maxE : Nat), cacheWF cache → key ≠ "" →
      (storeCacheEntry cache key r now maxE).length ≤ maxE)
    ∧ (∀ (ks : List String) (r : AgentResultObj) (now : Int) (maxE : Nat),
        ks.Nodup → (∀ k ∈ ks, k ≠ "") → ks.length = maxE + 1 → 1 ≤ maxE →
      storeAll [] (ks.map (fun k => (k, r))) now maxE
        = (ks.drop 1).map
            (fun k => (k, { timestamp := now, agent := { r with cacheStatus := none } })))
    ∧ (∀ (cache : MapL CachedEntry) (key : String) (r : AgentResultObj)
        (now : Int) (maxE : Nat),
        cache.any (fun p => p.1 = key) = true → cache.length ≤ maxE →
      (storeCacheEntry cache key r now maxE).map Prod.fst = cache.map Prod.fst) := by
  refine ⟨fun cache key r now maxE hmax hlen => ?_,
    fun cache key r now maxE hwf hk => storeCacheEntry_length_le cache key r now maxE hwf hk,
    fun ks r now maxE hnd hne hlen hmax => ?_,
    fun cache key r now maxE hany hlen => ?_⟩
  · cases hany : cache.any (fun p => p.1 = key) with
    | true =>
      show mapLookup (evictFuel (mapSet cache key _).length (mapSet cache key _) maxE) key = _
      rw [evictFuel_of_le _ _ _ (by rw [mapSet_present_length _ _ _ hany]; exact hlen)]
      exact mapLookup_mapSet _ cache key
    | false =>
      have hfr : ∀ q ∈ cache, q.1 ≠ key := by
        intro q hq
        have := List.any_eq_false.mp hany q hq
        simpa using this
      show mapLookup (evictFuel (mapSet cache key _).length (mapSet cache key _) maxE) key = _
      rw [mapSet_fresh _ _ _ hfr]
      exact evictFuel_lookup_last _ _ cache key maxE hmax hfr
  · rcases List.eq_nil_or_concat ks with rfl | ⟨init, kl, rfl⟩
    · simp at hlen
    · rw [List.concat_eq_append] at hnd hne hlen ⊢
      have hndi := hnd
      rw [List.nodup_append] at hndi
      have hinitlen : init.length = maxE := by
        simp at hlen
        omega
      have hinitne : init ≠ [] := by
        intro hc
        rw [hc] at hinitlen
        simp at hinitlen
        omega
      rw [List.map_append, List.map_singleton]
      rw [show storeAll [] (init.map (fun k => (k, r)) ++ [(kl, r)]) now maxE
          = storeCacheEntry (storeAll [] (init.map (fun k => (k, r))) now maxE) kl r now maxE
          from by simp [storeAll, List.foldl_append]]
      rw [storeAll_fresh_under init [] r now maxE (by simp) hndi.1 (by simp [hinitlen])]
      rw [List.nil_append]
      have hklfresh : ∀ q ∈ init.map
          (fun k => (k, ({ timestamp := now, agent := { r with cacheStatus := none } } : CachedEntry))),
          q.1 ≠ kl := by
        intro q hq
        obtain ⟨b, hbm, hba⟩ := List.mem_map.mp hq
        rw [← hba]
        simp only
        intro hc
        exact (hndi.2.2 (hc ▸ hbm)) (List.mem_singleton.mpr rfl)
      have hwfinit : cacheWF (init.map
          (fun k => (k, ({ timestamp := now, agent := { r with cacheStatus := none } } : CachedEntry)))) := by
        constructor
        · rw [List.map_map]
          have hcomp : (Prod.fst ∘ fun k => (k,
              ({ timestamp := now, agent := { r with cacheStatus := none } } : CachedEntry)))
              = (id : String → String) := rfl
          rw [hcomp, List.map_id]
          exact hndi.1
        · intro q hq
          obtain ⟨b, hbm, hba⟩ := List.mem_map.mp hq
          rw [← hba]
          exact hne b (by simp [hbm])
      rw [storeCacheEntry_fresh_full _ kl r now maxE hklfresh hwfinit (by simp [hinitlen]) hmax]
      obtain ⟨i0, irest, rfl⟩ := List.exists_cons_of_ne_nil hinitne
      simp
  · show (evictFuel (mapSet cache key _).length (mapSet cache key _) maxE).map Prod.fst = _
    rw [evictFuel_of_le _ _ _ (by rw [mapSet_present_length _ _ _ hany]; exact hlen)]
    exact mapSet_present_map_fst _ _ _ hany

/-- Counterexample for C2: with `maxEntries = 2`, storing `k1`, `k2`,
re-storing `k1`, then storing `k3` evicts `k1` (the code keeps `k1` at its
original, oldest position), while the claim — "a re-inserted key becomes
the last of the current entries to be evicted" — would require `k2` to be
evicted and `k1` to survive. -/
theorem storeCacheEntry_reinsert_keeps_position_cex :
    (storeAll [] [("k1", demoResult), ("k2", demoResult), ("k1", demoResult),
        ("k3", demoResult)] 0 2).map Prod.fst = ["k2", "k3"]
    ∧ mapLookup (storeAll [] [("k1", demoResult), ("k2", demoResult), ("k1", demoResult),
        ("k3", demoResult)] 0 2) "k1" = none
    ∧ (mapLookup (storeAll [] [("k1", demoResult), ("k2", demoResult), ("k1", demoResult),
        ("k3", demoResult)] 0 2) "k2").isSome = true := by
  exact ⟨by decide, by decide, by decide⟩

/-- Witness for C2 (amended) at concrete inputs: insertion into an empty
cache is retrievable; capacity 1 is enforced; three distinct keys with
`maxEntries = 2` leave the two newest; an overwrite keeps the key order. -/
theorem storeCacheEntry_insertion_order_eviction_witness :
    mapLookup (storeCacheEntry [] "k" demoResult 5 10) "k"
      = some { timestamp := 5, agent := { demoResult with cacheStatus := none } }
    ∧ (storeCacheEntry [("a", { timestamp := 0, agent := demoResult })] "b" demoResult 5 1).length ≤ 1
    ∧ storeAll [] (["k1", "k2", "k3"].map (fun k => (k, demoResult))) 0 2
        = (["k1", "k2", "k3"].drop 1).map
            (fun k => (k, { timestamp := 0, agent := { demoResult with cacheStatus := none } }))
    ∧ (storeCacheEntry [("a", { timestamp := 0, agent := demoResult })] "a" demoResult 5 5).map Prod.fst
        = [("a", ({ timestamp := 0, agent := demoResult } : CachedEntry))].map Prod.fst := by
  refine ⟨?_, ?_, ?_, ?_⟩
  · exact (storeCacheEntry_insertion_order_eviction).1 [] "k" demoResult 5 10
      (by decide) (by decide)
  · exact (storeCacheEntry_insertion_order_eviction).2.1
      [("a", { timestamp := 0, agent := demoResult })] "b" demoResult 5 1
      ⟨by decide, by decide⟩ (by decide)
  · exact (storeCacheEntry_insertion_order_eviction).2.2.1 ["k1", "k2", "k3"] demoResult 0 2
      (by decide) (by decide) (by decide) (by decide)
  · exact (storeCacheEntry_insertion_order_eviction).2.2.2
      [("a", { timestamp := 0, agent := demoResult })] "a" demoResult 5 5
      (by decide) (by decide)

/-- C7 (amended): the cache's copies are SHALLOW.  Top-level fields are
isolated: `storeCacheEntry` stores a fresh object (with `cacheStatus`
cleared), so a later top-level mutation of the caller's object does not
reach the stored one, and `getCacheEntry` returns a fresh copy, so a later
top-level mutation of the copy (e.g. annotating hit/miss) does not reach
the stored one.  However — correcting the claim — the copy shares every
field value with the stored object, in particular the `usage` reference,
so mutating the usage counters through a retrieved result does reach the
stored entry. -/
theorem cache_copy_top_level_isolated :
    (∀ (cache : MapL CachedEntryH) (rheap : List AgentResultObj) (key : String)
        (resultAddr : Nat) (now : Int) (maxE : Nat) (r2 : AgentResultObj),
      resultAddr < rheap.length →
      ((storeCacheEntryH cache rheap key resultAddr now maxE).2.set resultAddr r2).get?
          rheap.length
        = some { (rheap.get? resultAddr).getD default with cacheStatus := none })
    ∧ (∀ (cache : MapL CachedEntryH) (rheap : List AgentResultObj) (key : String)
        (ttl now : Int) (e : CachedEntryH) (r2 : AgentResultObj),
      mapLookup cache key = some e → ¬(ttl < now - e.timestamp) →
      e.agentAddr < rheap.length →
      (getCacheEntryH cache rheap key ttl now).1
          = some { timestamp := e.timestamp, agentAddr := rheap.length }
      ∧ ((getCacheEntryH cache rheap key ttl now).2.2.set rheap.length r2).get? e.agentAddr
          = rheap.get? e.agentAddr
      ∧ (getCacheEntryH cache rheap key ttl now).2.2.get? rheap.length
          = rheap.get? e.agentAddr) := by
  constructor
  · intro cache rheap key resultAddr now maxE r2 hlt
    show ((rheap ++ [{ (rheap.get? resultAddr).getD default with cacheStatus := none }]).set
        resultAddr r2).get? rheap.length = _
    rw [List.get?_set_ne r2 _ (Nat.ne_of_lt hlt)]
    exact List.get?_concat_length rheap _
  · intro cache rheap key ttl now e r2 hl httl haddr
    have hget : getCacheEntryH cache rheap key ttl now
        = (some { timestamp := e.timestamp, agentAddr := rheap.length },
           cache, rheap ++ [(rheap.get? e.agentAddr).getD default]) := by
      simp [getCacheEntryH, hl, if_neg httl]
    rw [hget]
    refine ⟨rfl, ?_, ?_⟩
    · show ((rheap ++ [(rheap.get? e.agentAddr).getD default]).set rheap.length r2).get?
          e.agentAddr = rheap.get? e.agentAddr
      rw [List.get?_set_ne r2 _ (Nat.ne_of_gt haddr)]
      exact List.get?_append haddr
    · show (rheap ++ [(rheap.get? e.agentAddr).getD default]).get? rheap.length
          = rheap.get? e.agentAddr
      rw [List.get?_concat_length]
      cases hx : rheap.get? e.agentAddr with
      | none =>
        rw [List.get?_eq_none] at hx
        omega
      | some x => simp [hx]

/-- Counterexample for C7: the retrieved copy's `usage` field is the same
reference as the stored entry's; mutating `input_tokens` to 42 through it
changes the usage observed on the entry stored in the cache from
`(1, 2, 3)` to `(42, 2, 3)` — the claim that mutating the returned
result's usage counters "leaves the entry stored in the cache unchanged"
is false. -/
theorem cache_shallow_copy_shares_usage_cex :
    c7Copy.usage = c7Stored.usage
    ∧ c7Copy.usage = some 0
    ∧ usageOf c7Uheap c7Stored
        = some { input_tokens := some 1, output_tokens := some 2, total_tokens := some 3 }
    ∧ usageOf c7UheapMutated c7Stored
        = some { input_tokens := some 42, output_tokens := some 2, total_tokens := some 3 } := by
  exact ⟨by decide, by decide, by decide, by decide⟩

/-- Witness for C7 (amended) at concrete inputs: mutating the caller's
object after a store, or the retrieved copy after a get, leaves the stored
object readable unchanged at its own address. -/
theorem cache_copy_top_level_isolated_witness :
    ((storeCacheEntryH [] [c7Caller] "k" 0 100 50).2.set 0
        { c7Caller with model := "mutated" }).get? 1
      = some { c7Caller with cacheStatus := none }
    ∧ (getCacheEntryH c7Store.1 c7Store.2 "k" 9999 100).1
        = some { timestamp := 100, agentAddr := 2 }
    ∧ ((getCacheEntryH c7Store.1 c7Store.2 "k" 9999 100).2.2.set 2
        { c7Caller with model := "mutated" }).get? 1
      = c7Store.2.get? 1 := by
  refine ⟨?_, ?_, ?_⟩
  · have h := (cache_copy_top_level_isolated).1 [] [c7Caller] "k" 0 100 50
      { c7Caller with model := "mutated" } (by decide)
    exact h.trans (by decide)
  · have h := ((cache_copy_top_level_isolated).2 c7Store.1 c7Store.2 "k" 9999 100
      { timestamp := 100, agentAddr := 1 } { c7Caller with model := "mutated" }
      (by decide) (by decide) (by decide)).1
    exact h.trans (by decide)
  · have h := ((cache_copy_top_level_isolated).2 c7Store.1 c7Store.2 "k" 9999 100
      { timestamp := 100, agentAddr := 1 } { c7Caller with model := "mutated" }
      (by decide) (by decide) (by decide)).2.1
    exact h

end Interpeer
